import Mathlib

/-!
Verification of the order ledger and analytics aggregation engine of a
multi-tenant storefront server (Express + Drizzle/Postgres).

The JavaScript runtime computes all checkout money through IEEE-754
binary64 values: the route handler does
  subtotal = parseFloat(product.price) * quantity
  total    = subtotal + shippingFee
and persists subtotal.toFixed(2) etc. into numeric(10,2) columns, while
the analytics code accumulates parseFloat(order.total) sums.  To settle
the numerical claims faithfully we embed binary64 arithmetic exactly:
a finite nonnegative double is a pair (mantissa, exponent), and every
operation rounds its exact rational result to 53 significant bits with
round-to-nearest, ties-to-even, flushing the exponent at the subnormal
limit -1074.  All computations below are plain natural-number and
integer arithmetic so that concrete instances evaluate inside the
kernel; the rational value of a float appears only in specifications.

Database decimal(10,2) strings are represented by their integer number
of cents.  All monetary values arising in this system are nonnegative,
so the embedding models the nonnegative range of binary64, which the
cited code never leaves.
-/

set_option maxRecDepth 8000

namespace RBDT

/-- Decidable equality of request outcomes, so that concrete route
results can be checked by evaluation. -/
instance {ε α : Type} [DecidableEq ε] [DecidableEq α] : DecidableEq (Except ε α) := fun x y =>
  match x, y with
  | .error a, .error b =>
      if h : a = b then isTrue (by rw [h]) else isFalse (fun hh => by cases hh; exact h rfl)
  | .ok a, .ok b =>
      if h : a = b then isTrue (by rw [h]) else isFalse (fun hh => by cases hh; exact h rfl)
  | .error _, .ok _ => isFalse (fun hh => by cases hh)
  | .ok _, .error _ => isFalse (fun hh => by cases hh)

/-! ## Binary64 model -/

/-- Floor of log2, consuming one bit of the argument per step of fuel. -/
def log2Small : ℕ → ℕ → ℕ
  | 0, _ => 0
  | f+1, n => if 2 ≤ n then log2Small f (n / 2) + 1 else 0

/-- Floor of log2, consuming 64 bits per step of fuel so that kernel
reduction stays shallow on numbers of a few thousand bits. -/
def log2Big : ℕ → ℕ → ℕ
  | 0, _ => 0
  | f+1, n => if 2^64 ≤ n then log2Big f (n / 2^64) + 64 else log2Small 64 n

/-- Floor of log2 for naturals below 2 to the 4096; returns 0 at 0. -/
def nlog2 (n : ℕ) : ℕ := log2Big 64 n

/-- Integer division rounding to the nearest quotient, ties to even. -/
def divHE (n d : ℕ) : ℕ :=
  if 2 * (n % d) < d then n / d
  else if d < 2 * (n % d) then n / d + 1
  else if (n / d) % 2 = 0 then n / d else n / d + 1

/-- A finite nonnegative binary64 value: mantissa times 2 to the exponent. -/
structure Fp64 where
  m : ℕ
  e : ℤ
  deriving DecidableEq, Repr

/-- The exact rational value denoted by a float. -/
def Fp64.val (x : Fp64) : ℚ := (x.m : ℚ) * (2:ℚ)^x.e

/-- Mantissa/exponent selection for rounding a/b once the floored log2
E of a/b is known: the exponent is E - 52 clamped at the subnormal
limit -1074, and the mantissa is the half-even rounding of a/b scaled
by 2 to the negated exponent. -/
def rnd53Aux (E : ℤ) (a b : ℕ) : Fp64 :=
  if E - 52 ≤ -1074 then ⟨divHE (a * 2^1074) b, -1074⟩
  else if E - 52 ≤ 0 then ⟨divHE (a * 2^((-(E - 52)).toNat)) b, E - 52⟩
  else ⟨divHE a (b * 2^((E - 52).toNat)), E - 52⟩

/-- Round the nonnegative rational a/b to binary64: choose the exponent
from the floored log2 shifted 52 bits (clamped at the subnormal limit),
then round the scaled mantissa to the nearest integer, ties to even.
The 2200-bit shift turns the rational log2 into a natural-number log2. -/
def rnd53 (a b : ℕ) : Fp64 :=
  rnd53Aux ((nlog2 (a * 2^2200 / b) : ℤ) - 2200) a b

/-- Round a value given as n times 2 to the e. -/
def rndSc (n : ℕ) (e : ℤ) : Fp64 :=
  if 0 ≤ e then rnd53 (n * 2^(e.toNat)) 1 else rnd53 n (2^((-e).toNat))

/-- The float 0 (the additive identity literal 0 in the JS source). -/
def fpZero : Fp64 := ⟨0, 0⟩

/-- parseFloat applied to the decimal string of a numeric(10,2) column
holding the given number of cents: ECMAScript parseFloat returns the
binary64 value nearest to the decimal value. -/
def parseDec (cents : ℕ) : Fp64 := rnd53 cents 100

/-- The smaller of the two exponents, used to align additions and
comparisons. -/
def fpMinE (x y : Fp64) : ℤ := if x.e ≤ y.e then x.e else y.e

/-- IEEE binary64 addition: round the exact sum.  Aligning both terms to
the smaller exponent makes the sum exact before the single rounding. -/
def fpAdd (x y : Fp64) : Fp64 :=
  rndSc (x.m * 2^((x.e - fpMinE x y).toNat) + y.m * 2^((y.e - fpMinE x y).toNat)) (fpMinE x y)

/-- IEEE binary64 multiplication by a natural number that is itself a
binary64 value (checkout quantities are far below 2 to the 53): round
the exact product. -/
def fpMulNat (x : Fp64) (q : ℕ) : Fp64 := rndSc (x.m * q) x.e

/-- Number.prototype.toFixed(2) of a nonnegative double, returned as
cents: ECMAScript picks the integer n minimising |n/100 - x|, taking
the larger n on ties, i.e. the floor of 100x + 1/2. -/
def toFixed2 (x : Fp64) : ℕ :=
  if 0 ≤ x.e then x.m * 100 * 2^(x.e.toNat)
  else (200 * x.m + 2^((-x.e).toNat)) / (2 * 2^((-x.e).toNat))

/-- Boolean comparison of two float values (used by the JS sort
comparator), computed by aligning the exponents. -/
def fpLeB (x y : Fp64) : Bool :=
  decide (x.m * 2^((x.e - fpMinE x y).toNat) ≤ y.m * 2^((y.e - fpMinE x y).toNat))

/-! ## Data model

Rows of the Drizzle schema (shared/schema.ts).  Monetary decimal(10,2)
columns are represented by their integer number of cents; `createdAt`
timestamps by epoch milliseconds.  DB-generated uuid ids are opaque
strings.  Fields never read by the modelled logic (images, description,
sku, stock, attributes, createdAt of catalog rows) are omitted. -/

structure Plan where
  name : String
  productLimit : ℤ
  allowCustomDomain : Bool
  allowTracking : Bool
  price : ℕ
  isActive : Bool
  deriving DecidableEq, Repr

structure Tenant where
  id : String
  name : String
  slug : String
  status : String
  deriving DecidableEq, Repr

structure Product where
  id : String
  tenantId : String
  name : String
  slug : String
  price : ℕ
  status : String
  deriving DecidableEq, Repr

structure ProductVariant where
  id : String
  productId : String
  name : String
  price : ℕ
  deriving DecidableEq, Repr

structure ShippingClass where
  id : String
  tenantId : String
  name : String
  fee : ℕ
  location : String
  isDefault : Bool
  deriving DecidableEq, Repr

structure OrderRow where
  id : String
  tenantId : String
  productId : String
  variantId : Option String
  customerName : String
  phone : String
  address : String
  quantity : ℕ
  shippingClassId : Option String
  shippingFee : ℕ
  subtotal : ℕ
  total : ℕ
  status : String
  createdAt : ℤ
  deriving DecidableEq, Repr

/-- The persistent store visible to the modelled routes. -/
structure StoreState where
  tenants : List Tenant
  products : List Product
  variants : List ProductVariant
  shippingClasses : List ShippingClass
  orders : List OrderRow
  deriving DecidableEq, Repr

/-- An HTTP-level outcome: status code and message body. -/
structure HttpResponse where
  status : ℕ
  message : String
  deriving DecidableEq, Repr

/-- The checkout request body.  `productId` is read from the raw body by
the route; the remaining fields are validated by checkoutSchema.  The
quantity is `z.number().min(1)` feeding the integer `quantity` column,
so the embedding takes integer quantities. -/
structure CheckoutBody where
  productId : String
  customerName : String
  phone : String
  address : String
  quantity : ℕ
  shippingClassId : String
  variantId : Option String
  deriving DecidableEq, Repr

/-! ## Checkout validation (checkoutSchema in shared/schema.ts) -/

/-- Drop a literal pattern from the head of the list, or fail. -/
def matchDrop : List Char → List Char → Option (List Char)
  | [], s => some s
  | _ :: _, [] => none
  | p :: ps, c :: cs => if c = p then matchDrop ps cs else none

/-- String.replace of an anchored literal pattern with the empty string:
drop the pattern if it heads the string, else leave the string alone. -/
def replaceHead (pat s : List Char) : List Char := (matchDrop pat s).getD s

/-- The checkoutSchema phone refinement: strip an optional leading
"+880", then "880", then "0", and require the remainder to match
1[3-9] followed by eight digits. -/
def phoneOk (s : String) : Bool :=
  let c1 := replaceHead ['+', '8', '8', '0'] s.toList
  let c2 := replaceHead ['8', '8', '0'] c1
  let c3 := replaceHead ['0'] c2
  match c3 with
  | '1' :: d :: rest =>
      decide ('3' ≤ d) && decide (d ≤ '9') && decide (rest.length = 8) && rest.all Char.isDigit
  | _ => false

/-- checkoutSchema.parse: the first failing field in declaration order
yields its message (the route returns error.errors[0].message). -/
def checkoutIssue (b : CheckoutBody) : Option String :=
  if b.customerName.length < 2 then some "Name must be at least 2 characters"
  else if !phoneOk b.phone then
    some "Invalid Bangladeshi phone number. Use format: 01XXXXXXXXX or +8801XXXXXXXXX"
  else if b.address.length < 10 then some "Please enter a complete address"
  else if b.quantity < 1 then some "Quantity must be at least 1"
  else if b.shippingClassId.length < 1 then some "Please select a shipping option"
  else none

/-! ## Order ledger routes (server/routes.ts) -/

/-- POST /api/store/:storeSlug/orders.  Follows the handler step by
step: resolve tenant by slug and require active status, validate the
body, resolve the product and require same-tenant ownership, resolve
the shipping class with a distinct 400 on mismatch, price the order
with binary64 arithmetic, persist toFixed(2) strings and status new.
The handler never reads `variantId`.  `newId` and `now` stand for the
DB-generated uuid and insertion timestamp. -/
def placeOrder (st : StoreState) (storeSlug : String) (b : CheckoutBody)
    (newId : String) (now : ℤ) : Except HttpResponse OrderRow × StoreState :=
  match st.tenants.find? (fun t => t.slug == storeSlug) with
  | none => (.error ⟨404, "Store not found"⟩, st)
  | some t =>
    if t.status ≠ "active" then (.error ⟨404, "Store not found"⟩, st)
    else match checkoutIssue b with
    | some msg => (.error ⟨400, msg⟩, st)
    | none =>
      match st.products.find? (fun p => p.id == b.productId) with
      | none => (.error ⟨404, "Product not found"⟩, st)
      | some p =>
        if p.tenantId ≠ t.id then (.error ⟨404, "Product not found"⟩, st)
        else match st.shippingClasses.find? (fun sc => sc.id == b.shippingClassId) with
        | none => (.error ⟨400, "Invalid shipping option"⟩, st)
        | some sc =>
          if sc.tenantId ≠ t.id then (.error ⟨400, "Invalid shipping option"⟩, st)
          else
            let subD := fpMulNat (parseDec p.price) b.quantity
            let feeD := parseDec sc.fee
            let totD := fpAdd subD feeD
            let row : OrderRow :=
              { id := newId, tenantId := t.id, productId := p.id, variantId := none,
                customerName := b.customerName, phone := b.phone, address := b.address,
                quantity := b.quantity, shippingClassId := some b.shippingClassId,
                shippingFee := toFixed2 feeD, subtotal := toFixed2 subD,
                total := toFixed2 totD, status := "new", createdAt := now }
            (.ok row, { st with orders := st.orders ++ [row] })

/-- PATCH /api/products/:id for an authenticated tenant: lookup by id,
treat absence and cross-tenant ownership identically as 404, else apply
the partial update `upd`. -/
def patchProductR (st : StoreState) (tenantId pid : String) (upd : Product → Product) :
    Except HttpResponse Product × StoreState :=
  match st.products.find? (fun p => p.id == pid) with
  | none => (.error ⟨404, "Product not found"⟩, st)
  | some p =>
    if p.tenantId ≠ tenantId then (.error ⟨404, "Product not found"⟩, st)
    else
      let p' := upd p
      (.ok p', { st with products := st.products.map (fun q => if q.id == pid then p' else q) })

/-- DELETE /api/products/:id: same 404 discipline; deletion removes the
variants of the product first, then the product. -/
def deleteProductR (st : StoreState) (tenantId pid : String) :
    Except HttpResponse Unit × StoreState :=
  match st.products.find? (fun p => p.id == pid) with
  | none => (.error ⟨404, "Product not found"⟩, st)
  | some p =>
    if p.tenantId ≠ tenantId then (.error ⟨404, "Product not found"⟩, st)
    else
      (.ok (), { st with
        variants := st.variants.filter (fun v => !(v.productId == pid)),
        products := st.products.filter (fun q => !(q.id == pid)) })

/-- PATCH /api/orders/:id/status: same 404 discipline; the new status is
written unconditionally (no transition table). -/
def patchOrderStatusR (st : StoreState) (tenantId oid newStatus : String) :
    Except HttpResponse OrderRow × StoreState :=
  match st.orders.find? (fun o => o.id == oid) with
  | none => (.error ⟨404, "Order not found"⟩, st)
  | some o =>
    if o.tenantId ≠ tenantId then (.error ⟨404, "Order not found"⟩, st)
    else
      let o' := { o with status := newStatus }
      (.ok o', { st with orders := st.orders.map (fun q => if q.id == oid then o' else q) })

/-- storage.bulkUpdateOrderStatus: select the orders of the tenant whose
id is in the batch; if the count differs from the batch size, throw
before any write; otherwise apply the status with one tenant-scoped
write and return the number of affected rows. -/
def bulkUpdateOrderStatus (dbOrders : List OrderRow) (ids : List String)
    (status : String) (tenantId : String) : List OrderRow × Except String ℕ :=
  let found := dbOrders.filter (fun o => o.tenantId == tenantId && ids.contains o.id)
  if found.length ≠ ids.length then
    (dbOrders, .error "Some orders not found or don\x27t belong to tenant")
  else
    (dbOrders.map (fun o =>
        if o.tenantId == tenantId && ids.contains o.id then { o with status := status } else o),
     .ok found.length)

/-! ## Plans: registration bootstrap and product-limit governor -/

/-- Stable insertion sort with a boolean comparator; agrees with the
stable ECMAScript Array.prototype.sort and is used to model ordered
reads (ORDER BY price). -/
def insertLe {α : Type} (le : α → α → Bool) (x : α) : List α → List α
  | [] => [x]
  | y :: ys => if le x y then x :: y :: ys else y :: insertLe le x ys

/-- Sort a list with the boolean comparator via stable insertion. -/
def jsSort {α : Type} (le : α → α → Bool) : List α → List α
  | [] => []
  | x :: xs => insertLe le x (jsSort le xs)

/-- storage.getActivePlans: active plans ordered by price. -/
def getActivePlans (plansDb : List Plan) : List Plan :=
  jsSort (fun a b => Nat.ble a.price b.price) (plansDb.filter (fun p => p.isActive))

/-- The default free-tier plan created by the registration bootstrap. -/
def defaultFreePlan : Plan :=
  { name := "Free", productLimit := 5, allowCustomDomain := false,
    allowTracking := true, price := 0, isActive := true }

/-- Registration plan bootstrap (POST /api/auth/register, lines 131-143):
take the first active plan; if none exists, create the default free
plan.  Returns the plan store after the step and the plan assigned to
the new tenant. -/
def ensureFreePlan (plansDb : List Plan) : List Plan × Plan :=
  match (getActivePlans plansDb).head? with
  | some p => (plansDb, p)
  | none => (plansDb ++ [defaultFreePlan], defaultFreePlan)

/-- The characteristic fields of the bootstrap default plan. -/
def isDefaultFreePlan (p : Plan) : Bool :=
  p.name == "Free" && p.productLimit == 5 && !p.allowCustomDomain &&
    p.allowTracking && p.price == 0 && p.isActive

/-- POST /api/products limit computation: user.tenant?.plan?.productLimit
with a JavaScript `|| 5` fallback, so a missing plan or a falsy (zero)
limit both fall back to 5. -/
def effectiveProductLimit (planOpt : Option Plan) : ℤ :=
  match planOpt with
  | some p => if p.productLimit = 0 then 5 else p.productLimit
  | none => 5

/-- POST /api/products limit gate: reject with 403 when the product
count has reached the effective limit. -/
def postProductR (productCount : ℕ) (planOpt : Option Plan) : Except HttpResponse Unit :=
  if effectiveProductLimit planOpt ≤ (productCount : ℤ) then
    .error ⟨403, "Product limit reached (" ++ toString (effectiveProductLimit planOpt) ++
      "). Please upgrade your plan."⟩
  else .ok ()

/-! ## Analytics (storage.getAnalytics) -/

/-- The analytics period query parameter. -/
inductive Period where
  | p7d | p30d | p90d | all
  deriving DecidableEq, Repr

/-- Start-of-window timestamp: now minus N days, or the epoch. -/
def periodCutoff (now : ℤ) : Period → ℤ
  | .p7d => now - 7 * 86400000
  | .p30d => now - 30 * 86400000
  | .p90d => now - 90 * 86400000
  | .all => 0

/-- The filtered order set every analytics view is computed from. -/
def windowFilter (os : List OrderRow) (now : ℤ) (period : Period) : List OrderRow :=
  os.filter (fun o => decide (periodCutoff now period ≤ o.createdAt))

/-- Lookup in an insertion-ordered association list (JS Map.get). -/
def mapGet {V : Type} : List (String × V) → String → Option V
  | [], _ => none
  | (k', v) :: rest, k => if k' = k then some v else mapGet rest k

/-- Update in an insertion-ordered association list (JS Map.set):
replace in place, or append a new key at the end. -/
def mapSet {V : Type} : List (String × V) → String → V → List (String × V)
  | [], k, v => [(k, v)]
  | (k', v') :: rest, k, v =>
      if k' = k then (k, v) :: rest else (k', v') :: mapSet rest k v

/-- One step of the Map-accumulation pattern the analytics code uses:
read the existing value with a default, update it, write it back. -/
def groupStep {α V : Type} (key : α → String) (dflt : α → V) (upd : V → α → V)
    (m : List (String × V)) (o : α) : List (String × V) :=
  mapSet m (key o) (upd ((mapGet m (key o)).getD (dflt o)) o)

/-- Order status breakdown: per status, count every order and add the
parsed total to revenue only when the status is delivered (a literal
float 0 is added otherwise, exactly as the source does). -/
def statusBreakdown (os : List OrderRow) : List (String × (ℕ × Fp64)) :=
  os.foldl
    (groupStep (fun o => o.status) (fun _ => (0, fpZero))
      (fun prev o =>
        (prev.1 + 1,
         fpAdd prev.2 (if o.status = "delivered" then parseDec o.total else fpZero))))
    []

/-- Map from product id to current name (new Map(list.map(...))). -/
def buildNameMap (ps : List Product) : List (String × String) :=
  ps.foldl (fun m p => mapSet m p.id p.name) []

/-- One row of the top-products report. -/
structure TPEntry where
  productId : String
  productName : String
  orders : ℕ
  revenue : Fp64
  deriving DecidableEq, Repr

/-- One Map-accumulation step of the top-products grouping: resolve the
display name through the catalog map with an Unknown Product fallback,
count the order and add the parsed total to revenue unconditionally on
status. -/
def tpStep (nameMap : List (String × String)) :
    List (String × (String × ℕ × Fp64)) → OrderRow → List (String × (String × ℕ × Fp64)) :=
  groupStep (fun o => o.productId)
    (fun o => ((mapGet nameMap o.productId).getD "Unknown Product", 0, fpZero))
    (fun prev o =>
      ((mapGet nameMap o.productId).getD "Unknown Product",
       prev.2.1 + 1, fpAdd prev.2.2 (parseDec o.total)))

/-- Top products: group the window orders by product id via tpStep,
then sort by descending revenue and keep the first 10. -/
def topProducts (os : List OrderRow) (ps : List Product) : List TPEntry :=
  (jsSort (fun a b => fpLeB b.revenue a.revenue)
    ((os.foldl (tpStep (buildNameMap ps)) []).map
      (fun kv => TPEntry.mk kv.1 kv.2.1 kv.2.2.1 kv.2.2.2))).take 10



/-! ## Concrete instances used in scenario checks -/

def exTenant : Tenant := ⟨"t1", "Shop One", "shop", "active"⟩

def exTenantB : Tenant := ⟨"t2", "Shop Two", "other", "active"⟩

def exProduct : Product := ⟨"p1", "t1", "Widget", "widget", 50000, "active"⟩

def exProduct2 : Product := ⟨"p2", "t1", "Gadget", "gadget", 30000, "active"⟩

def exProductB : Product := ⟨"pB", "t2", "Bolt", "bolt", 7000, "active"⟩

def exVariant : ProductVariant := ⟨"v1", "p1", "Widget Small", 5000⟩

def exShipping : ShippingClass := ⟨"s1", "t1", "Inside Dhaka", 6000, "Dhaka City", true⟩

def exShippingB : ShippingClass := ⟨"sB", "t2", "Inside Dhaka", 6000, "Dhaka City", true⟩

def exOrderB : OrderRow :=
  ⟨"oB", "t2", "pB", none, "Bob", "01712345678", "9 Other Road, Dhaka", 1,
   some "sB", 6000, 7000, 13000, "new", 10⟩

def exState : StoreState :=
  ⟨[exTenant, exTenantB], [exProduct, exProduct2, exProductB], [exVariant],
   [exShipping, exShippingB], [exOrderB]⟩

def exBody : CheckoutBody :=
  ⟨"p1", "Alice", "01712345678", "12 Long Street, Dhaka", 2, "s1", none⟩

def exBodyVar : CheckoutBody :=
  ⟨"p1", "Alice", "01712345678", "12 Long Street, Dhaka", 1, "s1", some "v1"⟩

def exBodyBadShip : CheckoutBody :=
  ⟨"p1", "Alice", "01712345678", "12 Long Street, Dhaka", 2, "sB", none⟩

def exRow : OrderRow :=
  ⟨"o1", "t1", "p1", none, "Alice", "01712345678", "12 Long Street, Dhaka", 2,
   some "s1", 6000, 100000, 106000, "new", 1000⟩

def exRowVar : OrderRow :=
  ⟨"o1", "t1", "p1", none, "Alice", "01712345678", "12 Long Street, Dhaka", 1,
   some "s1", 6000, 50000, 56000, "new", 1000⟩

def exDriftA : OrderRow :=
  ⟨"d1", "t1", "p1", none, "A", "01712345678", "addr addr addr", 1,
   some "s1", 0, 10, 10, "delivered", 5⟩

def exDriftB : OrderRow :=
  ⟨"d2", "t1", "p1", none, "B", "01712345678", "addr addr addr", 1,
   some "s1", 0, 20, 20, "delivered", 7⟩

def exOrderNew : OrderRow :=
  ⟨"n1", "t1", "p1", none, "A", "01712345678", "addr addr addr", 1,
   some "s1", 0, 10000, 10000, "new", 1⟩

def exOrderConfirmed : OrderRow :=
  ⟨"n2", "t1", "p1", none, "B", "01712345678", "addr addr addr", 1,
   some "s1", 0, 20000, 20000, "confirmed", 2⟩

def exOrderDelivered : OrderRow :=
  ⟨"n3", "t1", "p2", none, "C", "01712345678", "addr addr addr", 1,
   some "s1", 0, 30000, 30000, "delivered", 3⟩

def exBulk1 : OrderRow :=
  ⟨"b1", "t1", "p1", none, "A", "01712345678", "addr addr addr", 1,
   some "s1", 6000, 50000, 56000, "new", 1⟩

def exBulk2 : OrderRow :=
  ⟨"b2", "t1", "p1", none, "B", "01712345678", "addr addr addr", 1,
   some "s1", 6000, 50000, 56000, "shipped", 2⟩

def exBulk3 : OrderRow :=
  ⟨"b3", "t2", "pB", none, "C", "01712345678", "addr addr addr", 1,
   some "sB", 6000, 7000, 13000, "new", 3⟩

def exBulkDb : List OrderRow := [exBulk1, exBulk2, exBulk3]

def exBulkIds : List String := ["b1", "b2", "b3"]

def exPlanInactive : Plan := ⟨"Old", 3, true, false, 500, false⟩

def exPlanZero : Plan := ⟨"Zero", 0, false, true, 0, true⟩
/-- log2Small returns the floored log2 of any positive n below 2^fuel. -/
theorem log2Small_spec : ∀ (f n : ℕ), 1 ≤ n → n < 2^f →
    2^(log2Small f n) ≤ n ∧ n < 2^(log2Small f n + 1) := by
  intro f
  induction f with
  | zero => intro n h1 h2; omega
  | succ f ih =>
    intro n h1 h2
    rw [log2Small]
    by_cases h : 2 ≤ n
    · simp only [if_pos h]
      have hd1 : 1 ≤ n / 2 := by omega
      have hd2 : n / 2 < 2^f := by
        have := Nat.div_add_mod n 2
        have hp : 2^(f+1) = 2^f * 2 := pow_succ 2 f
        omega
      obtain ⟨l1, l2⟩ := ih (n / 2) hd1 hd2
      have e1 : 2^(log2Small f (n/2) + 1) = 2^(log2Small f (n/2)) * 2 := pow_succ _ _
      have e2 : 2^(log2Small f (n/2) + 1 + 1) = 2^(log2Small f (n/2) + 1) * 2 := pow_succ _ _
      have := Nat.div_add_mod n 2
      omega
    · simp only [if_neg h]
      omega

/-- log2Big returns the floored log2 of any positive n below 2^(64 f). -/
theorem log2Big_spec : ∀ (f n : ℕ), 1 ≤ n → n < 2^(64*f) →
    2^(log2Big f n) ≤ n ∧ n < 2^(log2Big f n + 1) := by
  intro f
  induction f with
  | zero => intro n h1 h2; simp only [Nat.mul_zero, pow_zero] at h2; omega
  | succ f ih =>
    intro n h1 h2
    rw [log2Big]
    by_cases h : 2^64 ≤ n
    · simp only [if_pos h]
      have hd1 : 1 ≤ n / 2^64 := (Nat.one_le_div_iff (by positivity)).2 h
      have hdm := Nat.div_add_mod n (2^64)
      have hmod := Nat.mod_lt n (show 0 < 2^64 by positivity)
      have hd2 : n / 2^64 < 2^(64*f) := by
        have hp : 2^(64*(f+1)) = 2^(64*f) * 2^64 := by ring
        by_contra hc
        push_neg at hc
        have : 2^(64*f) * 2^64 ≤ (n / 2^64) * 2^64 := mul_le_mul_right' hc (2^64)
        omega
      obtain ⟨l1, l2⟩ := ih (n / 2^64) hd1 hd2
      set L := log2Big f (n / 2^64) with hL
      constructor
      · calc 2^(L + 64) = 2^L * 2^64 := pow_add 2 L 64
          _ ≤ (n / 2^64) * 2^64 := mul_le_mul_right' l1 (2^64)
          _ ≤ n := by omega
      · have hstep : n / 2^64 + 1 ≤ 2^(L+1) := l2
        have h5 : (n / 2^64 + 1) * 2^64 ≤ 2^(L+1) * 2^64 := mul_le_mul_right' hstep (2^64)
        have h6 : 2^(L+1) * 2^64 = 2^(L + 64 + 1) := by rw [← pow_add]
        omega
    · simp only [if_neg h]
      exact log2Small_spec 64 n h1 (by omega)

/-- nlog2 is the floored log2 below 2^4000. -/
theorem nlog2_spec (n : ℕ) (h1 : 1 ≤ n) (h2 : n < 2^4000) :
    2^(nlog2 n) ≤ n ∧ n < 2^(nlog2 n + 1) := by
  have : n < 2^(64*64) := lt_of_lt_of_le h2 (Nat.pow_le_pow_right (by norm_num) (by norm_num))
  exact log2Big_spec 64 n h1 this

end RBDT

namespace RBDT


/-- divHE lands on the floor or its successor. -/
theorem divHE_cases (n d : ℕ) : divHE n d = n / d ∨ divHE n d = n / d + 1 := by
  unfold divHE
  split_ifs <;> simp

/-- divHE is within one half of the exact quotient. -/
theorem divHE_dist (n d : ℕ) (hd : 0 < d) : |(divHE n d : ℚ) - (n:ℚ)/d| ≤ 1/2 := by
  have hdm := Nat.div_add_mod n d
  have hmod := Nat.mod_lt n hd
  have hdQ : (0:ℚ) < d := by exact_mod_cast hd
  have hkey : (n:ℚ)/d = ((n/d : ℕ) : ℚ) + ((n % d : ℕ) : ℚ)/d := by
    have hN0 : n = n/d*d + n%d := (Nat.div_add_mod' n d).symm
    have hN : (n:ℚ) = ((n/d : ℕ):ℚ) * d + ((n%d : ℕ):ℚ) := by exact_mod_cast hN0
    rw [hN, add_div, mul_div_cancel_right₀ _ (ne_of_gt hdQ)]
  have hr0 : (0:ℚ) ≤ ((n % d : ℕ) : ℚ)/d := by positivity
  unfold divHE
  split_ifs with h1 h2 h3
  · have hr : ((n % d : ℕ) : ℚ)/d ≤ 1/2 := by
      rw [div_le_iff hdQ]
      have hN : (2 * (n % d) : ℕ) ≤ d := by omega
      have hQ : 2 * ((n % d : ℕ) : ℚ) ≤ d := by exact_mod_cast hN
      linarith
    rw [hkey, abs_le]
    constructor <;> push_cast <;> linarith
  · have hr : 1/2 ≤ ((n % d : ℕ) : ℚ)/d := by
      rw [le_div_iff hdQ]
      have hN : d ≤ 2 * (n % d) := by omega
      have hQ : (d:ℚ) ≤ 2 * ((n % d : ℕ) : ℚ) := by exact_mod_cast hN
      linarith
    have hr1 : ((n % d : ℕ) : ℚ)/d < 1 := by
      rw [div_lt_one hdQ]
      exact_mod_cast hmod
    rw [hkey, abs_le]
    constructor <;> push_cast <;> linarith
  · have hr : ((n % d : ℕ) : ℚ)/d = 1/2 := by
      rw [div_eq_div_iff (ne_of_gt hdQ) (by norm_num : (2:ℚ) ≠ 0)]
      have hQ : 2 * ((n % d : ℕ) : ℚ) = d := by
        have hN : 2 * (n % d) = d := by omega
        exact_mod_cast hN
      linarith
    rw [hkey, abs_le]
    constructor <;> push_cast <;> linarith
  · have hr : ((n % d : ℕ) : ℚ)/d = 1/2 := by
      rw [div_eq_div_iff (ne_of_gt hdQ) (by norm_num : (2:ℚ) ≠ 0)]
      have hQ : 2 * ((n % d : ℕ) : ℚ) = d := by
        have hN : 2 * (n % d) = d := by omega
        exact_mod_cast hN
      linarith
    rw [hkey, abs_le]
    constructor <;> push_cast <;> linarith

/-- Two naturals within half of each other are equal. -/
theorem natCast_close {N c : ℕ} (h : |(N:ℚ) - c| < 1/2) : N = c := by
  rcases Nat.lt_trichotomy N c with hlt | heq | hgt
  · exfalso
    have hc : (N:ℚ) + 1 ≤ c := by exact_mod_cast hlt
    rw [abs_lt] at h
    linarith
  · exact heq
  · exfalso
    have hc : (c:ℚ) + 1 ≤ N := by exact_mod_cast hgt
    rw [abs_lt] at h
    linarith


/-- Core of the rounding analysis: the half-even division of a scaled
mantissa in [2^52, 2^53) is within one half and bounded by 2^53. -/
theorem round_core (num den : ℕ) (hden : 0 < den) (m0 : ℚ)
    (hm0 : m0 = (num:ℚ)/den) (hhi : m0 < 2^53) :
    |(divHE num den : ℚ) - m0| ≤ 1/2 ∧ divHE num den ≤ 2^53 := by
  have h1 : |(divHE num den : ℚ) - m0| ≤ 1/2 := by
    rw [hm0]; exact divHE_dist num den hden
  refine ⟨h1, ?_⟩
  rw [abs_le] at h1
  have h2 : (divHE num den : ℚ) < 2^53 + 1 := by linarith
  have h3 : ((2:ℚ)^(53:ℕ) + 1) = ((2^53 + 1 : ℕ) : ℚ) := by push_cast; ring
  rw [h3] at h2
  have h4 : divHE num den < 2^53 + 1 := by exact_mod_cast h2
  omega

/-- Exponent-to-value bracketing and error analysis of rnd53: for a
ratio in the normal range, rounding has relative error at most one in
2^53, the mantissa is at most 2^53, and the exponent is in range. -/
theorem rnd53_spec (a b : ℕ) (hb : 0 < b)
    (hlow : 1/2^900 ≤ (a:ℚ)/b) (hup : (a:ℚ)/b ≤ 2^600) :
    |Fp64.val (rnd53 a b) - (a:ℚ)/b| ≤ ((a:ℚ)/b) / 2^53 ∧
    (rnd53 a b).m ≤ 2^53 ∧ -1074 ≤ (rnd53 a b).e ∧ (rnd53 a b).e ≤ 548 := by
  have hbQ : (0:ℚ) < b := by exact_mod_cast hb
  have hratpos : (0:ℚ) < (a:ℚ)/b := lt_of_lt_of_le (by positivity) hlow
  rcases Nat.eq_zero_or_pos a with rfl | ha
  · norm_num at hratpos
  have hN1 : b ≤ a * 2^900 := by
    have h1 := hlow
    rw [div_le_div_iff (by positivity) hbQ] at h1
    have h2 : (b:ℚ) ≤ (a:ℚ) * 2^900 := by push_cast at h1 ⊢; linarith
    exact_mod_cast h2
  have hN2 : a ≤ b * 2^600 := by
    rw [div_le_iff hbQ] at hup
    have h2 : (a:ℚ) ≤ (b:ℚ) * 2^600 := by linarith
    exact_mod_cast h2
  have ht1 : 1 ≤ a * 2^2200 / b := by
    rw [Nat.le_div_iff_mul_le hb, one_mul]
    calc b ≤ a * 2^900 := hN1
      _ ≤ a * 2^2200 := Nat.mul_le_mul_left a (Nat.pow_le_pow_right (by norm_num) (by norm_num))
  have ht2 : a * 2^2200 / b < 2^4000 := by
    have h1 : a * 2^2200 ≤ b * 2^2800 := by
      calc a * 2^2200 ≤ b * 2^600 * 2^2200 := mul_le_mul_right' hN2 _
        _ = b * 2^2800 := by ring
    calc a * 2^2200 / b ≤ b * 2^2800 / b := Nat.div_le_div_right h1
      _ = 2^2800 := Nat.mul_div_cancel_left _ hb
      _ < 2^4000 := Nat.pow_lt_pow_right (by norm_num) (by norm_num)
  obtain ⟨hL1, hL2⟩ := nlog2_spec _ ht1 ht2
  set L := nlog2 (a * 2^2200 / b) with hLdef
  set E : ℤ := (L:ℤ) - 2200 with hEdef
  have hEpow : (2:ℚ)^E = (2:ℚ)^(L:ℕ) / (2:ℚ)^(2200:ℕ) := by
    rw [hEdef, zpow_sub₀ (two_ne_zero), zpow_natCast]
    norm_num
  have hEpow1 : (2:ℚ)^(E+1) = (2:ℚ)^(L+1:ℕ) / (2:ℚ)^(2200:ℕ) := by
    have : E + 1 = ((L+1 : ℕ) : ℤ) - 2200 := by rw [hEdef]; push_cast; ring
    rw [this, zpow_sub₀ (two_ne_zero), zpow_natCast]
    norm_num
  have hbr1 : (2:ℚ)^E ≤ (a:ℚ)/b := by
    have hN : 2^L * b ≤ a * 2^2200 := (Nat.le_div_iff_mul_le hb).1 hL1
    have hQ : (2:ℚ)^(L:ℕ) * b ≤ (a:ℚ) * 2^(2200:ℕ) := by exact_mod_cast hN
    rw [hEpow, div_le_div_iff (by positivity) hbQ]
    linarith
  have hbr2 : (a:ℚ)/b < (2:ℚ)^(E+1) := by
    have hN : a * 2^2200 < 2^(L+1) * b := (Nat.div_lt_iff_lt_mul hb).1 hL2
    have hQ : (a:ℚ) * 2^(2200:ℕ) < (2:ℚ)^(L+1:ℕ) * b := by exact_mod_cast hN
    rw [hEpow1, div_lt_div_iff hbQ (by positivity)]
    linarith
  have hE1 : -901 ≤ E := by
    by_contra hc
    push_neg at hc
    have h1 : (a:ℚ)/b < (2:ℚ)^(-900 : ℤ) :=
      lt_of_lt_of_le hbr2 (zpow_le_zpow_right₀ one_le_two (by omega))
    have h2 : (2:ℚ)^(-900:ℤ) = 1/2^900 := by
      rw [zpow_neg]
      norm_num
    rw [h2] at h1
    linarith
  have hE2 : E ≤ 600 := by
    by_contra hc
    push_neg at hc
    have h1 : (2:ℚ)^(601:ℤ) ≤ (a:ℚ)/b :=
      le_trans (zpow_le_zpow_right₀ one_le_two (by omega)) hbr1
    have h2 : (2:ℚ)^(600:ℕ) < (2:ℚ)^(601:ℤ) := by
      have : ((601:ℤ)) = ((601:ℕ):ℤ) := by norm_num
      rw [this, zpow_natCast]
      exact pow_lt_pow_right₀ one_lt_two (by norm_num)
    linarith
  set e : ℤ := E - 52 with hedef
  have hesub : ¬ (E - 52 ≤ -1074) := by omega
  have hrw0 : rnd53 a b = rnd53Aux E a b := by
    rw [rnd53, hEdef, hLdef]
  have hepos : (0:ℚ) < (2:ℚ)^e := zpow_pos (by norm_num) e
  have habk : (a:ℚ)/b = ((a:ℚ)/b) * (2:ℚ)^(-e) * (2:ℚ)^e := by
    rw [mul_assoc, ← zpow_add₀ (two_ne_zero : (2:ℚ) ≠ 0)]
    norm_num
  have finish : ∀ (num den : ℕ), 0 < den →
      ((a:ℚ)/b) * (2:ℚ)^(-e) = (num:ℚ)/den →
      rnd53 a b = ⟨divHE num den, e⟩ →
      |Fp64.val (rnd53 a b) - (a:ℚ)/b| ≤ ((a:ℚ)/b) / 2^53 ∧
      (rnd53 a b).m ≤ 2^53 ∧ -1074 ≤ (rnd53 a b).e ∧ (rnd53 a b).e ≤ 548 := by
    intro num den hden heq hrw
    have hnegpos : (0:ℚ) < (2:ℚ)^(-e) := zpow_pos (by norm_num) _
    have hm0hi : ((a:ℚ)/b) * (2:ℚ)^(-e) < 2^53 := by
      have h1 : ((a:ℚ)/b) * (2:ℚ)^(-e) < (2:ℚ)^(E+1) * (2:ℚ)^(-e) :=
        mul_lt_mul_of_pos_right hbr2 hnegpos
      have h2 : (2:ℚ)^(E+1) * (2:ℚ)^(-e) = (2:ℚ)^(53:ℕ) := by
        rw [← zpow_add₀ (two_ne_zero : (2:ℚ) ≠ 0)]
        have : E + 1 + -e = 53 := by omega
        rw [this]
        norm_num [zpow_natCast]
      rw [h2] at h1
      exact h1
    have hm0lo : (2:ℚ)^(52:ℕ) ≤ ((a:ℚ)/b) * (2:ℚ)^(-e) := by
      have h1 : (2:ℚ)^E * (2:ℚ)^(-e) ≤ ((a:ℚ)/b) * (2:ℚ)^(-e) :=
        mul_le_mul_of_nonneg_right hbr1 (le_of_lt hnegpos)
      have h2 : (2:ℚ)^E * (2:ℚ)^(-e) = (2:ℚ)^(52:ℕ) := by
        rw [← zpow_add₀ (two_ne_zero : (2:ℚ) ≠ 0)]
        have : E + -e = 52 := by omega
        rw [this]
        norm_num [zpow_natCast]
      rw [h2] at h1
      exact h1
    obtain ⟨hdist, hmle⟩ := round_core num den hden _ heq hm0hi
    have hvale : Fp64.val (rnd53 a b) = (divHE num den : ℚ) * (2:ℚ)^e := by
      rw [hrw, Fp64.val]
    have herr : |Fp64.val (rnd53 a b) - (a:ℚ)/b| ≤ (1/2) * (2:ℚ)^e := by
      rw [hvale]
      have hfac : (divHE num den : ℚ) * (2:ℚ)^e - (a:ℚ)/b =
          ((divHE num den : ℚ) - ((a:ℚ)/b) * (2:ℚ)^(-e)) * (2:ℚ)^e := by
        rw [sub_mul, ← habk]
      rw [hfac, abs_mul, abs_of_pos hepos]
      exact mul_le_mul_of_nonneg_right hdist (le_of_lt hepos)
    have hbound : (1/2) * (2:ℚ)^e ≤ ((a:ℚ)/b) / 2^53 := by
      have h1 : (1/2) * (2:ℚ)^e = (2:ℚ)^(E - 53) := by
        rw [hedef, show E - 52 = E - 53 + 1 by ring,
          zpow_add₀ (two_ne_zero : (2:ℚ) ≠ 0), zpow_one]
        ring
      have h2 : (2:ℚ)^(E - 53) = (2:ℚ)^E * (2:ℚ)^(-53 : ℤ) := by
        rw [← zpow_add₀ (two_ne_zero : (2:ℚ) ≠ 0)]
        ring_nf
      have h3 : (2:ℚ)^E * (2:ℚ)^(-53:ℤ) ≤ ((a:ℚ)/b) * (2:ℚ)^(-53:ℤ) :=
        mul_le_mul_of_nonneg_right hbr1 (le_of_lt (zpow_pos (by norm_num) _))
      have h4a : (2:ℚ)^(-53:ℤ) = ((2:ℚ)^(53:ℕ))⁻¹ := by norm_num
      have h4 : ((a:ℚ)/b) * (2:ℚ)^(-53:ℤ) = ((a:ℚ)/b) / 2^53 := by
        rw [h4a]
        ring
      rw [h1, h2]
      rw [h4] at h3
      exact h3
    refine ⟨le_trans herr hbound, ?_, ?_, ?_⟩
    · rw [hrw]; exact hmle
    · rw [hrw]; show -1074 ≤ e; omega
    · rw [hrw]; show e ≤ 548; omega
  rcases le_or_lt e 0 with hcase | hcase
  · have hknn : (0:ℤ) ≤ -e := by omega
    have hpowcast : ((2^((-e).toNat) : ℕ) : ℚ) = (2:ℚ)^(-e) := by
      rw [Nat.cast_pow]
      push_cast
      rw [← zpow_natCast (2:ℚ) ((-e).toNat), Int.toNat_of_nonneg hknn]
    have heq : ((a:ℚ)/b) * (2:ℚ)^(-e) = ((a * 2^((-e).toNat) : ℕ) : ℚ)/b := by
      push_cast [hpowcast]
      ring
    have hrw : rnd53 a b = ⟨divHE (a * 2^((-e).toNat)) b, e⟩ := by
      rw [hrw0, rnd53Aux, if_neg hesub, if_pos (by omega : E - 52 ≤ 0)]
    exact finish _ b hb heq hrw
  · have hknn : (0:ℤ) ≤ e := by omega
    have hpowcast : ((2^(e.toNat) : ℕ) : ℚ) = (2:ℚ)^e := by
      rw [Nat.cast_pow]
      push_cast
      rw [← zpow_natCast (2:ℚ) (e.toNat), Int.toNat_of_nonneg hknn]
    have heq : ((a:ℚ)/b) * (2:ℚ)^(-e) = (a : ℚ)/((b * 2^(e.toNat) : ℕ) : ℚ) := by
      push_cast [hpowcast]
      rw [zpow_neg]
      field_simp
    have hrw : rnd53 a b = ⟨divHE a (b * 2^(e.toNat)), e⟩ := by
      rw [hrw0, rnd53Aux, if_neg hesub, if_neg (by omega : ¬ (E - 52 ≤ 0))]
    exact finish _ _ (by positivity) heq hrw

/-- The value of a float is nonnegative. -/
theorem val_nonneg (x : Fp64) : 0 ≤ Fp64.val x := by
  rw [Fp64.val]
  positivity

/-- A float with zero mantissa has value zero. -/
theorem val_zero_of_m_zero (x : Fp64) (h : x.m = 0) : Fp64.val x = 0 := by
  rw [Fp64.val, h]
  norm_num

/-- A float with positive value has positive mantissa. -/
theorem m_pos_of_val_pos (x : Fp64) (h : 0 < Fp64.val x) : 0 < x.m := by
  by_contra hc
  push_neg at hc
  have : x.m = 0 := by omega
  rw [val_zero_of_m_zero x this] at h
  exact lt_irrefl _ h

/-- rndSc error specification, inherited from rnd53. -/
theorem rndSc_spec (n : ℕ) (c : ℤ) (hn : 0 < n)
    (hlow : 1/2^900 ≤ (n:ℚ) * (2:ℚ)^c) (hup : (n:ℚ) * (2:ℚ)^c ≤ 2^600) :
    |Fp64.val (rndSc n c) - (n:ℚ) * (2:ℚ)^c| ≤ ((n:ℚ) * (2:ℚ)^c) / 2^53 ∧
    (rndSc n c).m ≤ 2^53 ∧ -1074 ≤ (rndSc n c).e ∧ (rndSc n c).e ≤ 548 := by
  rw [rndSc]
  split_ifs with hc
  · have heq : (((n * 2^(c.toNat) : ℕ)):ℚ)/((1:ℕ):ℚ) = (n:ℚ) * (2:ℚ)^c := by
      push_cast
      rw [← zpow_natCast (2:ℚ) c.toNat, Int.toNat_of_nonneg hc]
      ring
    have h1 := rnd53_spec (n * 2^(c.toNat)) 1 one_pos
      (by rw [heq]; exact hlow) (by rw [heq]; exact hup)
    rw [heq] at h1
    exact h1
  · push_neg at hc
    have hknn : (0:ℤ) ≤ -c := by omega
    have heq : ((n:ℕ):ℚ)/((2^((-c).toNat) : ℕ):ℚ) = (n:ℚ) * (2:ℚ)^c := by
      push_cast
      rw [← zpow_natCast (2:ℚ) ((-c).toNat), Int.toNat_of_nonneg hknn]
      rw [div_eq_mul_inv, ← zpow_neg]
      norm_num
    have h1 := rnd53_spec n (2^((-c).toNat)) (pow_pos (by norm_num) _)
      (by rw [heq]; exact hlow) (by rw [heq]; exact hup)
    rw [heq] at h1
    exact h1

/-- Binary64 multiplication by an exactly representable natural has
relative error at most one part in 2^53. -/
theorem fpMulNat_spec (x : Fp64) (q : ℕ) (hq : 0 < x.m * q)
    (hlow : 1/2^900 ≤ Fp64.val x * q) (hup : Fp64.val x * q ≤ 2^600) :
    |Fp64.val (fpMulNat x q) - Fp64.val x * q| ≤ (Fp64.val x * q) / 2^53 ∧
    (fpMulNat x q).m ≤ 2^53 ∧ -1074 ≤ (fpMulNat x q).e ∧ (fpMulNat x q).e ≤ 548 := by
  have hveq : ((x.m * q : ℕ):ℚ) * (2:ℚ)^x.e = Fp64.val x * q := by
    rw [Fp64.val]
    push_cast
    ring
  rw [fpMulNat]
  have h1 := rndSc_spec (x.m * q) x.e hq (by rw [hveq]; exact hlow) (by rw [hveq]; exact hup)
  rw [hveq] at h1
  exact h1

/-- Binary64 addition has relative error at most one part in 2^53 on
positive sums in the normal range. -/
theorem fpAdd_spec (x y : Fp64) (hpos : 0 < x.m ∨ 0 < y.m)
    (hlow : 1/2^900 ≤ Fp64.val x + Fp64.val y)
    (hup : Fp64.val x + Fp64.val y ≤ 2^600) :
    |Fp64.val (fpAdd x y) - (Fp64.val x + Fp64.val y)| ≤ (Fp64.val x + Fp64.val y) / 2^53 ∧
    (fpAdd x y).m ≤ 2^53 ∧ -1074 ≤ (fpAdd x y).e ∧ (fpAdd x y).e ≤ 548 := by
  have hxc : fpMinE x y ≤ x.e := by
    rw [fpMinE]; split_ifs <;> omega
  have hyc : fpMinE x y ≤ y.e := by
    rw [fpMinE]; split_ifs with h <;> omega
  have hveq : ((x.m * 2^((x.e - fpMinE x y).toNat) + y.m * 2^((y.e - fpMinE x y).toNat) : ℕ):ℚ)
      * (2:ℚ)^(fpMinE x y) = Fp64.val x + Fp64.val y := by
    push_cast
    rw [← zpow_natCast (2:ℚ) ((x.e - fpMinE x y).toNat), Int.toNat_of_nonneg (by omega)]
    rw [← zpow_natCast (2:ℚ) ((y.e - fpMinE x y).toNat), Int.toNat_of_nonneg (by omega)]
    rw [Fp64.val, Fp64.val, add_mul, mul_assoc, mul_assoc]
    rw [← zpow_add₀ (two_ne_zero : (2:ℚ) ≠ 0), ← zpow_add₀ (two_ne_zero : (2:ℚ) ≠ 0)]
    rw [sub_add_cancel, sub_add_cancel]
  have hnpos : 0 < x.m * 2^((x.e - fpMinE x y).toNat) + y.m * 2^((y.e - fpMinE x y).toNat) := by
    rcases hpos with h | h
    · have h1 : 0 < x.m * 2^((x.e - fpMinE x y).toNat) :=
        Nat.mul_pos h (pow_pos (by norm_num) _)
      omega
    · have h1 : 0 < y.m * 2^((y.e - fpMinE x y).toNat) :=
        Nat.mul_pos h (pow_pos (by norm_num) _)
      omega
  rw [fpAdd]
  have h1 := rndSc_spec _ (fpMinE x y) hnpos (by rw [hveq]; exact hlow) (by rw [hveq]; exact hup)
  rw [hveq] at h1
  exact h1

/-- toFixed(2) recovers the exact cents whenever the double is within
half a cent of an exact two-decimal value. -/
theorem toFixed2_val (x : Fp64) (c : ℕ) (h : |Fp64.val x - (c:ℚ)/100| < 1/200) :
    toFixed2 x = c := by
  rw [toFixed2]
  split_ifs with he
  · have hcast : ((x.m * 100 * 2^(x.e.toNat) : ℕ) : ℚ) = Fp64.val x * 100 := by
      rw [Fp64.val]
      push_cast
      rw [← zpow_natCast (2:ℚ) x.e.toNat, Int.toNat_of_nonneg he]
      ring
    apply natCast_close
    rw [hcast]
    have heq2 : Fp64.val x * 100 - (c:ℚ) = (Fp64.val x - (c:ℚ)/100) * 100 := by ring
    rw [heq2, abs_mul, abs_of_pos (show (0:ℚ) < 100 by norm_num)]
    calc |Fp64.val x - (c:ℚ)/100| * 100 < (1/200) * 100 := by
          exact mul_lt_mul_of_pos_right h (by norm_num)
      _ = 1/2 := by norm_num
  · push_neg at he
    have hPpos : (0:ℕ) < 2^((-x.e).toNat) := pow_pos (by norm_num) _
    have hPQpos : (0:ℚ) < ((2^((-x.e).toNat) : ℕ):ℚ) := by exact_mod_cast hPpos
    have hPQ : ((2^((-x.e).toNat) : ℕ):ℚ) = (2:ℚ)^(-x.e) := by
      push_cast
      rw [← zpow_natCast (2:ℚ) ((-x.e).toNat), Int.toNat_of_nonneg (by omega)]
    have hval : Fp64.val x * ((2^((-x.e).toNat) : ℕ):ℚ) = (x.m : ℚ) := by
      rw [Fp64.val, hPQ, mul_assoc, ← zpow_add₀ (two_ne_zero : (2:ℚ) ≠ 0)]
      norm_num
    rw [abs_lt] at h
    have h1 : (c:ℚ) - 1/2 < Fp64.val x * 100 := by linarith
    have h2 : Fp64.val x * 100 < (c:ℚ) + 1/2 := by linarith
    have hvm : Fp64.val x * 100 * ((2^((-x.e).toNat) : ℕ):ℚ) = 100 * (x.m:ℚ) := by
      calc Fp64.val x * 100 * ((2^((-x.e).toNat) : ℕ):ℚ)
          = 100 * (Fp64.val x * ((2^((-x.e).toNat) : ℕ):ℚ)) := by ring
        _ = 100 * (x.m:ℚ) := by rw [hval]
    have hQ1 : ((c * (2 * 2^((-x.e).toNat)) : ℕ) : ℚ) < ((200 * x.m + 2^((-x.e).toNat) : ℕ) : ℚ) := by
      have hstep := mul_lt_mul_of_pos_right h1 hPQpos
      rw [hvm] at hstep
      push_cast at hstep ⊢
      linarith
    have hQ2 : ((200 * x.m + 2^((-x.e).toNat) : ℕ) : ℚ) < (((c+1) * (2 * 2^((-x.e).toNat)) : ℕ) : ℚ) := by
      have hstep := mul_lt_mul_of_pos_right h2 hPQpos
      rw [hvm] at hstep
      push_cast at hstep ⊢
      linarith
    have hN1 : c * (2 * 2^((-x.e).toNat)) < 200 * x.m + 2^((-x.e).toNat) := by exact_mod_cast hQ1
    have hN2 : 200 * x.m + 2^((-x.e).toNat) < (c+1) * (2 * 2^((-x.e).toNat)) := by exact_mod_cast hQ2
    exact Nat.div_eq_of_lt_le (le_of_lt hN1) hN2

/-- parseFloat on a positive decimal(10,2) string has relative error at
most one part in 2^53. -/
theorem parseDec_spec (pc : ℕ) (h1 : 1 ≤ pc) (h2 : pc ≤ 10^10) :
    |Fp64.val (parseDec pc) - (pc:ℚ)/100| ≤ ((pc:ℚ)/100) / 2^53 ∧
    (parseDec pc).m ≤ 2^53 ∧ -1074 ≤ (parseDec pc).e ∧ (parseDec pc).e ≤ 548 := by
  rw [parseDec]
  have hpQ1 : (1:ℚ) ≤ (pc:ℚ) := by exact_mod_cast h1
  have hpQ2 : (pc:ℚ) ≤ 10^10 := by exact_mod_cast h2
  have hcast : ((100:ℕ):ℚ) = (100:ℚ) := by norm_num
  have hlow : 1/2^900 ≤ (pc:ℚ)/((100:ℕ):ℚ) := by
    rw [hcast]
    calc (1:ℚ)/2^900 ≤ 1/100 := by norm_num
      _ ≤ (pc:ℚ)/100 := by linarith
  have hup : (pc:ℚ)/((100:ℕ):ℚ) ≤ 2^600 := by
    rw [hcast]
    calc (pc:ℚ)/100 ≤ (10:ℚ)^10/100 := by linarith
      _ ≤ 2^600 := by norm_num
  have h := rnd53_spec pc 100 (by norm_num) hlow hup
  rw [hcast] at h
  exact h

/-- parseDec of zero cents is the float zero with subnormal exponent. -/
theorem parseDec_zero : parseDec 0 = ⟨0, -1074⟩ := by decide

/-- parseFloat error bound including zero cents. -/
theorem parseDec_err (fc : ℕ) (h2 : fc ≤ 10^10) :
    |Fp64.val (parseDec fc) - (fc:ℚ)/100| ≤ (fc:ℚ)/(100 * 2^53) := by
  rcases Nat.eq_zero_or_pos fc with rfl | hfc
  · rw [parseDec_zero]
    simp [Fp64.val]
  · have h := (parseDec_spec fc hfc h2).1
    calc |Fp64.val (parseDec fc) - (fc:ℚ)/100| ≤ ((fc:ℚ)/100) / 2^53 := h
      _ = (fc:ℚ)/(100 * 2^53) := by ring

/-- The computed subtotal double is within (3/2^53) relative of the
exact product of price and quantity, measured in currency units. -/
theorem subD_err (pc q : ℕ) (h1 : 1 ≤ pc) (h2 : 1 ≤ q) (h3 : pc * q ≤ 10^10) :
    |Fp64.val (fpMulNat (parseDec pc) q) - ((pc * q : ℕ):ℚ)/100| ≤
      ((pc:ℚ) * q) * 3 / (100 * 2^53) := by
  have hpcN : pc ≤ 10^10 := by
    have hle : pc ≤ pc * q := by
      have hm := Nat.mul_le_mul_left pc h2
      simpa using hm
    omega
  obtain ⟨hperr, hpm, hpe1, hpe2⟩ := parseDec_spec pc h1 hpcN
  have hpQ1 : (1:ℚ) ≤ (pc:ℚ) := by exact_mod_cast h1
  have hqQ1 : (1:ℚ) ≤ (q:ℚ) := by exact_mod_cast h2
  have hq0 : (0:ℚ) ≤ (q:ℚ) := by linarith
  have hBle : (pc:ℚ) * q ≤ 10^10 := by
    have : ((pc * q : ℕ):ℚ) ≤ ((10^10 : ℕ):ℚ) := by exact_mod_cast h3
    push_cast at this
    linarith
  have habs := abs_le.1 hperr
  have hPlo : (pc:ℚ)/100 - ((pc:ℚ)/100)/2^53 ≤ Fp64.val (parseDec pc) := by linarith
  have hPhi : Fp64.val (parseDec pc) ≤ (pc:ℚ)/50 := by
    have : ((pc:ℚ)/100)/2^53 ≤ (pc:ℚ)/100 := by
      have hp0 : (0:ℚ) ≤ (pc:ℚ)/100 := by positivity
      calc ((pc:ℚ)/100)/2^53 ≤ ((pc:ℚ)/100)/1 := by
            apply div_le_div_of_nonneg_left hp0 (by norm_num) (by norm_num)
        _ = (pc:ℚ)/100 := by ring
    linarith
  have hPpos : 0 < Fp64.val (parseDec pc) := by
    have hx : (0:ℚ) < (pc:ℚ)/100 - ((pc:ℚ)/100)/2^53 := by
      have hpos : (1:ℚ)/100 ≤ (pc:ℚ)/100 := by linarith
      have h53 : ((pc:ℚ)/100)/2^53 < ((pc:ℚ)/100)/2 := by
        apply div_lt_div_of_pos_left (by linarith) (by norm_num) (by norm_num)
      linarith
    linarith
  have hmpos : 0 < (parseDec pc).m * q := by
    exact Nat.mul_pos (m_pos_of_val_pos _ hPpos) (by omega)
  have hPqself : Fp64.val (parseDec pc) ≤ Fp64.val (parseDec pc) * q :=
    le_mul_of_one_le_right (le_of_lt hPpos) hqQ1
  have hlowmul : 1/2^900 ≤ Fp64.val (parseDec pc) * q := by
    have hP200 : (1:ℚ)/200 ≤ Fp64.val (parseDec pc) := by
      have hpos : (1:ℚ)/100 ≤ (pc:ℚ)/100 := by linarith
      have h53 : ((pc:ℚ)/100)/2^53 ≤ ((pc:ℚ)/100)/2 := by
        apply div_le_div_of_nonneg_left (by positivity) (by norm_num) (by norm_num)
      linarith
    calc (1:ℚ)/2^900 ≤ 1/200 := by norm_num
      _ ≤ Fp64.val (parseDec pc) := hP200
      _ ≤ Fp64.val (parseDec pc) * q := hPqself
  have hPqB : Fp64.val (parseDec pc) * q ≤ ((pc:ℚ) * q)/50 := by
    have := mul_le_mul_of_nonneg_right hPhi hq0
    calc Fp64.val (parseDec pc) * q ≤ (pc:ℚ)/50 * q := this
      _ = ((pc:ℚ) * q)/50 := by ring
  have hupmul : Fp64.val (parseDec pc) * q ≤ 2^600 := by
    calc Fp64.val (parseDec pc) * q ≤ ((pc:ℚ) * q)/50 := hPqB
      _ ≤ (10:ℚ)^10/50 := by linarith
      _ ≤ 2^600 := by norm_num
  obtain ⟨herr2, _, _, _⟩ := fpMulNat_spec (parseDec pc) q hmpos hlowmul hupmul
  have hPqErr : |Fp64.val (parseDec pc) * q - (pc:ℚ)/100 * q| ≤ ((pc:ℚ)/100)/2^53 * q := by
    have hmul := mul_le_mul_of_nonneg_right hperr hq0
    calc |Fp64.val (parseDec pc) * q - (pc:ℚ)/100 * q|
        = |Fp64.val (parseDec pc) - (pc:ℚ)/100| * q := by
          rw [← sub_mul, abs_mul, abs_of_nonneg hq0]
      _ ≤ ((pc:ℚ)/100)/2^53 * q := hmul
  have htri := abs_sub_le (Fp64.val (fpMulNat (parseDec pc) q))
    (Fp64.val (parseDec pc) * q) ((pc:ℚ)/100 * q)
  have hround : |Fp64.val (fpMulNat (parseDec pc) q) - Fp64.val (parseDec pc) * q| ≤
      ((pc:ℚ) * q)/50 / 2^53 := by
    calc |Fp64.val (fpMulNat (parseDec pc) q) - Fp64.val (parseDec pc) * q|
        ≤ (Fp64.val (parseDec pc) * q) / 2^53 := herr2
      _ ≤ ((pc:ℚ) * q)/50 / 2^53 := by linarith [hPqB]
  have hfix : ((pc * q : ℕ):ℚ)/100 = (pc:ℚ)/100 * q := by push_cast; ring
  rw [hfix]
  calc |Fp64.val (fpMulNat (parseDec pc) q) - (pc:ℚ)/100 * q|
      ≤ |Fp64.val (fpMulNat (parseDec pc) q) - Fp64.val (parseDec pc) * q| +
        |Fp64.val (parseDec pc) * q - (pc:ℚ)/100 * q| := htri
    _ ≤ ((pc:ℚ) * q)/50 / 2^53 + ((pc:ℚ)/100)/2^53 * q := by linarith [hround, hPqErr]
    _ = ((pc:ℚ) * q) * 3 / (100 * 2^53) := by ring

/-- The computed total double is within (6/2^53) relative of the exact
subtotal-plus-fee, measured in currency units. -/
theorem totD_err (pc q fc : ℕ) (h1 : 1 ≤ pc) (h2 : 1 ≤ q) (h3 : pc * q + fc ≤ 10^10) :
    |Fp64.val (fpAdd (fpMulNat (parseDec pc) q) (parseDec fc)) - ((pc*q + fc : ℕ):ℚ)/100| ≤
      ((pc:ℚ)*q + fc) * 6 / (100 * 2^53) := by
  have h3' : pc * q ≤ 10^10 := by omega
  have hfc10 : fc ≤ 10^10 := by omega
  have hsub := subD_err pc q h1 h2 h3'
  have hfee := parseDec_err fc hfc10
  have hpQ1 : (1:ℚ) ≤ (pc:ℚ) := by exact_mod_cast h1
  have hqQ1 : (1:ℚ) ≤ (q:ℚ) := by exact_mod_cast h2
  have hB1 : (1:ℚ) ≤ (pc:ℚ) * q := by nlinarith
  have hBF : (pc:ℚ)*q + fc ≤ 10^10 := by
    have hc : ((pc*q + fc : ℕ):ℚ) ≤ ((10^10 : ℕ):ℚ) := by exact_mod_cast h3
    push_cast at hc
    linarith
  have hf0 : (0:ℚ) ≤ (fc:ℚ) := by positivity
  have hfix : ((pc * q : ℕ):ℚ)/100 = (pc:ℚ)*q/100 := by push_cast; ring
  rw [hfix] at hsub
  have habs1 := abs_le.1 hsub
  have habs2 := abs_le.1 hfee
  have hVSlo : (1:ℚ)/200 ≤ Fp64.val (fpMulNat (parseDec pc) q) := by
    have hexp : (pc:ℚ)*q/100 - ((pc:ℚ)*q) * 3 / (100 * 2^53) ≥ ((pc:ℚ)*q)/200 := by
      nlinarith
    have : ((pc:ℚ)*q)/200 ≥ 1/200 := by linarith
    linarith
  have hVShi : Fp64.val (fpMulNat (parseDec pc) q) ≤ ((pc:ℚ)*q)/50 := by
    nlinarith
  have hVFhi : Fp64.val (parseDec fc) ≤ (fc:ℚ)/50 := by
    nlinarith
  have hVF0 := val_nonneg (parseDec fc)
  have hpos : 0 < (fpMulNat (parseDec pc) q).m ∨ 0 < (parseDec fc).m :=
    Or.inl (m_pos_of_val_pos _ (by linarith))
  have hlow : 1/2^900 ≤ Fp64.val (fpMulNat (parseDec pc) q) + Fp64.val (parseDec fc) := by
    calc (1:ℚ)/2^900 ≤ 1/200 := by norm_num
      _ ≤ Fp64.val (fpMulNat (parseDec pc) q) := hVSlo
      _ ≤ Fp64.val (fpMulNat (parseDec pc) q) + Fp64.val (parseDec fc) := by linarith
  have hup : Fp64.val (fpMulNat (parseDec pc) q) + Fp64.val (parseDec fc) ≤ 2^600 := by
    have : Fp64.val (fpMulNat (parseDec pc) q) + Fp64.val (parseDec fc) ≤
        ((pc:ℚ)*q)/50 + (fc:ℚ)/50 := by linarith
    have hbig : ((pc:ℚ)*q)/50 + (fc:ℚ)/50 ≤ (10:ℚ)^10/50 := by linarith
    have : ((10:ℚ)^10)/50 ≤ 2^600 := by norm_num
    linarith
  obtain ⟨hadd, _, _, _⟩ := fpAdd_spec _ _ hpos hlow hup
  have hcast2 : ((pc*q + fc : ℕ):ℚ)/100 = (pc:ℚ)*q/100 + (fc:ℚ)/100 := by push_cast; ring
  rw [hcast2]
  have htri1 := abs_sub_le
    (Fp64.val (fpAdd (fpMulNat (parseDec pc) q) (parseDec fc)))
    (Fp64.val (fpMulNat (parseDec pc) q) + Fp64.val (parseDec fc))
    ((pc:ℚ)*q/100 + (fc:ℚ)/100)
  have htri2 : |Fp64.val (fpMulNat (parseDec pc) q) + Fp64.val (parseDec fc) -
      ((pc:ℚ)*q/100 + (fc:ℚ)/100)| ≤
      |Fp64.val (fpMulNat (parseDec pc) q) - (pc:ℚ)*q/100| +
      |Fp64.val (parseDec fc) - (fc:ℚ)/100| := by
    have hre : Fp64.val (fpMulNat (parseDec pc) q) + Fp64.val (parseDec fc) -
        ((pc:ℚ)*q/100 + (fc:ℚ)/100) =
        (Fp64.val (fpMulNat (parseDec pc) q) - (pc:ℚ)*q/100) +
        (Fp64.val (parseDec fc) - (fc:ℚ)/100) := by ring
    rw [hre]
    exact abs_add _ _
  have hroundle : |Fp64.val (fpAdd (fpMulNat (parseDec pc) q) (parseDec fc)) -
      (Fp64.val (fpMulNat (parseDec pc) q) + Fp64.val (parseDec fc))| ≤
      (((pc:ℚ)*q)/50 + (fc:ℚ)/50) / 2^53 := by
    calc |Fp64.val (fpAdd (fpMulNat (parseDec pc) q) (parseDec fc)) -
        (Fp64.val (fpMulNat (parseDec pc) q) + Fp64.val (parseDec fc))| ≤
        (Fp64.val (fpMulNat (parseDec pc) q) + Fp64.val (parseDec fc)) / 2^53 := hadd
      _ ≤ (((pc:ℚ)*q)/50 + (fc:ℚ)/50) / 2^53 := by linarith
  linarith [htri1, htri2, hroundle, hsub, hfee]

/-- The persisted subtotal string is the exact price-times-quantity in
cents for every amount that fits the numeric(10,2) column. -/
theorem subCents (pc q : ℕ) (h1 : 1 ≤ pc) (h2 : 1 ≤ q) (h3 : pc * q ≤ 10^10) :
    toFixed2 (fpMulNat (parseDec pc) q) = pc * q := by
  apply toFixed2_val
  have h := subD_err pc q h1 h2 h3
  have hB : (pc:ℚ) * q ≤ 10^10 := by
    have hc : ((pc*q : ℕ):ℚ) ≤ ((10^10 : ℕ):ℚ) := by exact_mod_cast h3
    push_cast at hc
    linarith
  have hfin : ((pc:ℚ) * q) * 3 / (100 * 2^53) < 1/200 := by
    have hstep : ((pc:ℚ) * q) * 3 / (100 * 2^53) ≤ (10:ℚ)^10 * 3 / (100 * 2^53) := by linarith
    have : (10:ℚ)^10 * 3 / (100 * 2^53) < 1/200 := by norm_num
    linarith
  exact lt_of_le_of_lt h hfin

/-- The persisted shipping fee string is the exact fee in cents. -/
theorem feeCents (fc : ℕ) (h : fc ≤ 10^10) : toFixed2 (parseDec fc) = fc := by
  apply toFixed2_val
  have herr := parseDec_err fc h
  have hB : (fc:ℚ) ≤ 10^10 := by exact_mod_cast h
  have hfin : (fc:ℚ) / (100 * 2^53) < 1/200 := by
    have hstep : (fc:ℚ) / (100 * 2^53) ≤ (10:ℚ)^10 / (100 * 2^53) := by linarith
    have : (10:ℚ)^10 / (100 * 2^53) < 1/200 := by norm_num
    linarith
  exact lt_of_le_of_lt herr hfin

/-- The persisted total string is the exact subtotal-plus-fee in cents
for every amount that fits the numeric(10,2) column. -/
theorem totCents (pc q fc : ℕ) (h1 : 1 ≤ pc) (h2 : 1 ≤ q) (h3 : pc * q + fc ≤ 10^10) :
    toFixed2 (fpAdd (fpMulNat (parseDec pc) q) (parseDec fc)) = pc * q + fc := by
  apply toFixed2_val
  have h := totD_err pc q fc h1 h2 h3
  have hB : (pc:ℚ) * q + fc ≤ 10^10 := by
    have hc : ((pc*q + fc : ℕ):ℚ) ≤ ((10^10 : ℕ):ℚ) := by exact_mod_cast h3
    push_cast at hc
    linarith
  have hB0 : (0:ℚ) ≤ (pc:ℚ) * q + fc := by positivity
  have hfin : ((pc:ℚ)*q + fc) * 6 / (100 * 2^53) < 1/200 := by
    have hstep : ((pc:ℚ)*q + fc) * 6 / (100 * 2^53) ≤ (10:ℚ)^10 * 6 / (100 * 2^53) := by linarith
    have : (10:ℚ)^10 * 6 / (100 * 2^53) < 1/200 := by norm_num
    linarith
  exact lt_of_le_of_lt h hfin

/-- Setting then getting the same key yields the new value. -/
theorem mapGet_mapSet_self {V : Type} (m : List (String × V)) (k : String) (v : V) :
    mapGet (mapSet m k v) k = some v := by
  induction m with
  | nil => simp [mapSet, mapGet]
  | cons kv rest ih =>
    obtain ⟨k', v'⟩ := kv
    by_cases h : k' = k
    · simp [mapSet, mapGet, h]
    · simp [mapSet, mapGet, h, ih]

/-- Setting one key leaves other keys unchanged. -/
theorem mapGet_mapSet_ne {V : Type} (m : List (String × V)) (k k' : String) (v : V)
    (h : k ≠ k') : mapGet (mapSet m k v) k' = mapGet m k' := by
  induction m with
  | nil => simp [mapSet, mapGet, h]
  | cons kv rest ih =>
    obtain ⟨k'', v''⟩ := kv
    by_cases h2 : k'' = k
    · subst h2
      simp [mapSet, mapGet, h]
    · simp only [mapSet, if_neg h2, mapGet]
      by_cases h3 : k'' = k'
      · simp [mapGet, h3]
      · simp [mapGet, h3, ih]

/-- Keys after a set are the old keys plus possibly the new key. -/
theorem mem_keys_mapSet {V : Type} (m : List (String × V)) (k : String) (v : V) (a : String) :
    a ∈ (mapSet m k v).map Prod.fst ↔ a ∈ m.map Prod.fst ∨ a = k := by
  induction m with
  | nil => simp [mapSet]
  | cons kv rest ih =>
    obtain ⟨k', v'⟩ := kv
    by_cases h : k' = k
    · subst h
      simp [mapSet]
      tauto
    · simp [mapSet, h, ih]
      tauto

/-- Map.set preserves distinctness of keys. -/
theorem mapSet_keys_nodup {V : Type} (m : List (String × V)) (k : String) (v : V)
    (h : (m.map Prod.fst).Nodup) : ((mapSet m k v).map Prod.fst).Nodup := by
  induction m with
  | nil => simp [mapSet]
  | cons kv rest ih =>
    obtain ⟨k', v'⟩ := kv
    rw [List.map_cons, List.nodup_cons] at h
    by_cases h2 : k' = k
    · subst h2
      rw [mapSet, if_pos rfl, List.map_cons, List.nodup_cons]
      exact h
    · rw [mapSet, if_neg h2, List.map_cons, List.nodup_cons]
      refine ⟨?_, ih h.2⟩
      rw [mem_keys_mapSet]
      rintro (h3 | rfl)
      · exact h.1 h3
      · exact h2 rfl

/-- In a map with distinct keys, every entry is retrieved by its key. -/
theorem mapGet_eq_some_of_mem {V : Type} (m : List (String × V)) (e : String × V)
    (hnd : (m.map Prod.fst).Nodup) (he : e ∈ m) : mapGet m e.1 = some e.2 := by
  induction m with
  | nil => cases he
  | cons kv rest ih =>
    obtain ⟨k', v'⟩ := kv
    rw [List.map_cons, List.nodup_cons] at hnd
    rcases List.mem_cons.1 he with rfl | hrest
    · simp [mapGet]
    · have hne : k' ≠ e.1 := by
        intro hcontra
        apply hnd.1
        rw [hcontra]
        exact List.mem_map.2 ⟨e, hrest, rfl⟩
      simp only [mapGet, if_neg hne]
      exact ih hnd.2 hrest

/-- A successful get means the pair is in the map. -/
theorem mem_of_mapGet_eq_some {V : Type} (m : List (String × V)) (k : String) (v : V)
    (h : mapGet m k = some v) : (k, v) ∈ m := by
  induction m with
  | nil => simp [mapGet] at h
  | cons kv rest ih =>
    obtain ⟨k', v'⟩ := kv
    by_cases h2 : k' = k
    · subst h2
      simp [mapGet] at h
      subst h
      exact List.mem_cons_self _ _
    · rw [mapGet, if_neg h2] at h
      exact List.mem_cons_of_mem _ (ih h)

/-- The fundamental fold/get exchange for the Map-accumulation pattern:
getting a key after folding is folding the updates of the orders with
that key over the previous binding. -/
theorem groupFold_get {α V : Type} (key : α → String) (dflt : α → V) (upd : V → α → V) :
    ∀ (os : List α) (m : List (String × V)) (k : String),
    mapGet (os.foldl (groupStep key dflt upd) m) k =
      (os.filter (fun o => decide (key o = k))).foldl
        (fun acc o => some (upd (acc.getD (dflt o)) o)) (mapGet m k) := by
  intro os
  induction os with
  | nil => intro m k; simp
  | cons o rest ih =>
    intro m k
    rw [List.foldl_cons, List.filter_cons]
    by_cases h : key o = k
    · rw [if_pos (decide_eq_true h), List.foldl_cons, ih]
      have hstep : mapGet (groupStep key dflt upd m o) k =
          some (upd ((mapGet m k).getD (dflt o)) o) := by
        rw [groupStep, h]
        exact mapGet_mapSet_self _ _ _
      rw [hstep]
    · rw [if_neg (by simp [h]), ih]
      have hstep : mapGet (groupStep key dflt upd m o) k = mapGet m k := by
        rw [groupStep]
        exact mapGet_mapSet_ne _ _ _ _ h
      rw [hstep]

/-- Keys stay distinct through the whole Map-accumulation fold. -/
theorem groupFold_keys_nodup {α V : Type} (key : α → String) (dflt : α → V) (upd : V → α → V) :
    ∀ (os : List α) (m : List (String × V)), (m.map Prod.fst).Nodup →
    ((os.foldl (groupStep key dflt upd) m).map Prod.fst).Nodup := by
  intro os
  induction os with
  | nil => intro m h; exact h
  | cons o rest ih =>
    intro m h
    rw [List.foldl_cons]
    exact ih _ (mapSet_keys_nodup _ _ _ h)

/-- Folding the optional update over a list from an existing value. -/
theorem optFold_some {α V : Type} (dflt : α → V) (upd : V → α → V) :
    ∀ (l : List α) (v : V),
    l.foldl (fun acc o => some (upd (acc.getD (dflt o)) o)) (some v) = some (l.foldl upd v) := by
  intro l
  induction l with
  | nil => intro v; simp
  | cons o rest ih => intro v; simp [ih]

/-- Folding the optional update over a nonempty list from nothing. -/
theorem optFold_none_cons {α V : Type} (dflt : α → V) (upd : V → α → V)
    (o : α) (rest : List α) :
    (o :: rest).foldl (fun acc o => some (upd (acc.getD (dflt o)) o)) none =
      some ((o :: rest).foldl upd (dflt o)) := by
  rw [List.foldl_cons, List.foldl_cons]
  simp [optFold_some]

/-- First component of the count-and-accumulate pair fold. -/
theorem pairFold_fst {α β : Type} (g : β → α → β) :
    ∀ (l : List α) (a : ℕ) (b : β),
    (l.foldl (fun p o => (p.1 + 1, g p.2 o)) (a, b)).1 = a + l.length := by
  intro l
  induction l with
  | nil => intro a b; simp
  | cons o rest ih => intro a b; simp [ih]; omega

/-- Second component of the count-and-accumulate pair fold. -/
theorem pairFold_snd {α β : Type} (g : β → α → β) :
    ∀ (l : List α) (a : ℕ) (b : β),
    (l.foldl (fun p o => (p.1 + 1, g p.2 o)) (a, b)).2 = l.foldl g b := by
  intro l
  induction l with
  | nil => intro a b; simp
  | cons o rest ih => intro a b; simp [ih]

/-- Half-even division of zero is zero. -/
theorem divHE_zero (d : ℕ) : divHE 0 d = 0 := by
  rw [divHE]
  simp only [Nat.zero_mod, Nat.zero_div, Nat.mul_zero]
  split_ifs <;> omega

/-- Rounding zero yields a zero mantissa. -/
theorem rnd53_zero_m (b : ℕ) : (rnd53 0 b).m = 0 := by
  rw [rnd53, Nat.zero_mul, Nat.zero_div]
  have h0 : nlog2 0 = 0 := by decide
  rw [h0, rnd53Aux, if_pos (by norm_num)]
  exact divHE_zero _

/-- Scaled rounding of zero yields a zero mantissa. -/
theorem rndSc_zero_m (c : ℤ) : (rndSc 0 c).m = 0 := by
  rw [rndSc]
  split_ifs with h
  · rw [Nat.zero_mul]
    exact rnd53_zero_m 1
  · exact rnd53_zero_m _

/-- Adding two zero floats yields a zero mantissa (JS 0 + 0). -/
theorem fpAdd_m_zero (x y : Fp64) (hx : x.m = 0) (hy : y.m = 0) : (fpAdd x y).m = 0 := by
  rw [fpAdd, hx, hy, Nat.zero_mul, Nat.zero_mul, Nat.add_zero]
  exact rndSc_zero_m _

/-- The float zero literal has zero mantissa. -/
theorem fpZero_m : fpZero.m = 0 := rfl

/-- Inserting preserves the multiset of elements. -/
theorem insertLe_perm {α : Type} (le : α → α → Bool) (x : α) (l : List α) :
    List.Perm (insertLe le x l) (x :: l) := by
  induction l with
  | nil => rfl
  | cons y ys ih =>
    rw [insertLe]
    split_ifs with h
    · rfl
    · exact (ih.cons y).trans (List.Perm.swap x y ys)

/-- The modelled stable sort permutes its input. -/
theorem jsSort_perm {α : Type} (le : α → α → Bool) (l : List α) :
    List.Perm (jsSort le l) l := by
  induction l with
  | nil => rfl
  | cons x xs ih =>
    rw [jsSort]
    exact (insertLe_perm le x (jsSort le xs)).trans (ih.cons x)

/-- Inserting into a sorted list keeps it sorted, for a total
transitive boolean comparator. -/
theorem pairwise_insertLe {α : Type} {le : α → α → Bool}
    (htot : ∀ a b, le a b = true ∨ le b a = true)
    (htr : ∀ a b c, le a b = true → le b c = true → le a c = true)
    (x : α) (l : List α) (h : l.Pairwise (fun a b => le a b = true)) :
    (insertLe le x l).Pairwise (fun a b => le a b = true) := by
  induction l with
  | nil => simp [insertLe]
  | cons y ys ih =>
    rw [insertLe]
    rcases List.pairwise_cons.1 h with ⟨hy, hys⟩
    split_ifs with hxy
    · refine List.pairwise_cons.2 ⟨?_, h⟩
      intro z hz
      rcases List.mem_cons.1 hz with rfl | hz2
      · exact hxy
      · exact htr x y z hxy (hy z hz2)
    · refine List.pairwise_cons.2 ⟨?_, ih hys⟩
      intro z hz
      have hz2 := (insertLe_perm le x ys).mem_iff.1 hz
      rcases List.mem_cons.1 hz2 with rfl | hz3
      · rcases htot y z with hyz | hzy
        · exact hyz
        · exact absurd hzy hxy
      · exact hy z hz3

/-- The modelled stable sort sorts, for a total transitive comparator. -/
theorem pairwise_jsSort {α : Type} {le : α → α → Bool}
    (htot : ∀ a b, le a b = true ∨ le b a = true)
    (htr : ∀ a b c, le a b = true → le b c = true → le a c = true)
    (l : List α) : (jsSort le l).Pairwise (fun a b => le a b = true) := by
  induction l with
  | nil => simp [jsSort]
  | cons x xs ih =>
    rw [jsSort]
    exact pairwise_insertLe htot htr x _ ih

/-- The boolean float comparison decides exactly the value order. -/
theorem fpLeB_iff (x y : Fp64) : fpLeB x y = true ↔ Fp64.val x ≤ Fp64.val y := by
  rw [fpLeB, decide_eq_true_eq]
  have hxc : fpMinE x y ≤ x.e := by rw [fpMinE]; split_ifs <;> omega
  have hyc : fpMinE x y ≤ y.e := by rw [fpMinE]; split_ifs with h <;> omega
  have hcast : ∀ (z : Fp64), fpMinE x y ≤ z.e →
      ((z.m * 2^((z.e - fpMinE x y).toNat) : ℕ) : ℚ) =
        Fp64.val z * (2:ℚ)^(-(fpMinE x y)) := by
    intro z hz
    push_cast
    rw [← zpow_natCast (2:ℚ) ((z.e - fpMinE x y).toNat), Int.toNat_of_nonneg (by omega)]
    rw [Fp64.val, mul_assoc, ← zpow_add₀ (two_ne_zero : (2:ℚ) ≠ 0), ← sub_eq_add_neg]
  have hpos : (0:ℚ) < (2:ℚ)^(-(fpMinE x y)) := zpow_pos (by norm_num) _
  constructor
  · intro h
    have hQ : ((x.m * 2^((x.e - fpMinE x y).toNat) : ℕ) : ℚ) ≤
        ((y.m * 2^((y.e - fpMinE x y).toNat) : ℕ) : ℚ) := by exact_mod_cast h
    rw [hcast x hxc, hcast y hyc] at hQ
    exact le_of_mul_le_mul_right hQ hpos
  · intro h
    have hQ : Fp64.val x * (2:ℚ)^(-(fpMinE x y)) ≤ Fp64.val y * (2:ℚ)^(-(fpMinE x y)) :=
      mul_le_mul_of_nonneg_right h (le_of_lt hpos)
    rw [← hcast x hxc, ← hcast y hyc] at hQ
    exact_mod_cast hQ

/-- Every id selected by the bulk ownership query lies in the batch. -/
theorem bulk_found_sub (dbOrders : List OrderRow) (ids : List String) (t : String) :
    ∀ a ∈ (dbOrders.filter (fun o => o.tenantId == t && ids.contains o.id)).map OrderRow.id,
      a ∈ ids := by
  intro a ha
  rcases List.mem_map.1 ha with ⟨o, ho, rfl⟩
  have hp := List.of_mem_filter ho
  rw [Bool.and_eq_true] at hp
  exact List.elem_iff.1 hp.2

/-- The ids selected by the bulk ownership query are distinct when the
order table has distinct primary keys. -/
theorem bulk_found_nodup (dbOrders : List OrderRow) (ids : List String) (t : String)
    (hdb : (dbOrders.map OrderRow.id).Nodup) :
    ((dbOrders.filter (fun o => o.tenantId == t && ids.contains o.id)).map OrderRow.id).Nodup :=
  hdb.sublist ((List.filter_sublist _).map OrderRow.id)

/-- The count selected by the bulk ownership query matches the batch
size exactly when every batch id resolves to an order of the tenant. -/
theorem bulk_owned_iff (dbOrders : List OrderRow) (ids : List String) (t : String)
    (hids : ids.Nodup) (hdb : (dbOrders.map OrderRow.id).Nodup) :
    (dbOrders.filter (fun o => o.tenantId == t && ids.contains o.id)).length = ids.length
    ↔ ∀ i ∈ ids, ∃ o, o ∈ dbOrders ∧ o.id = i ∧ o.tenantId = t := by
  have hFnd := bulk_found_nodup dbOrders ids t hdb
  have hlen : ((dbOrders.filter (fun o => o.tenantId == t && ids.contains o.id)).map
      OrderRow.id).length =
      (dbOrders.filter (fun o => o.tenantId == t && ids.contains o.id)).length :=
    List.length_map _ _
  constructor
  · intro heq i hi
    have hsub : ((dbOrders.filter (fun o => o.tenantId == t && ids.contains o.id)).map
        OrderRow.id).toFinset ⊆ ids.toFinset := by
      intro a ha
      rw [List.mem_toFinset] at ha ⊢
      exact bulk_found_sub dbOrders ids t a ha
    have hcard : ids.toFinset.card ≤ ((dbOrders.filter
        (fun o => o.tenantId == t && ids.contains o.id)).map OrderRow.id).toFinset.card := by
      rw [List.toFinset_card_of_nodup hFnd, List.toFinset_card_of_nodup hids, hlen]
      omega
    have heqF := Finset.eq_of_subset_of_card_le hsub hcard
    have hiF : i ∈ (dbOrders.filter (fun o => o.tenantId == t && ids.contains o.id)).map
        OrderRow.id := by
      rw [← List.mem_toFinset, heqF, List.mem_toFinset]
      exact hi
    rcases List.mem_map.1 hiF with ⟨o, ho, rfl⟩
    have hp := List.of_mem_filter ho
    rw [Bool.and_eq_true] at hp
    exact ⟨o, List.mem_of_mem_filter ho, rfl, beq_iff_eq.1 hp.1⟩
  · intro hall
    have h2 : ∀ i ∈ ids, i ∈ (dbOrders.filter
        (fun o => o.tenantId == t && ids.contains o.id)).map OrderRow.id := by
      intro i hi
      rcases hall i hi with ⟨o, ho, hid, ht⟩
      refine List.mem_map.2 ⟨o, ?_, hid⟩
      refine List.mem_filter.2 ⟨ho, ?_⟩
      rw [Bool.and_eq_true]
      refine ⟨beq_iff_eq.2 ht, List.elem_iff.2 ?_⟩
      rw [hid]
      exact hi
    have heqF : ((dbOrders.filter (fun o => o.tenantId == t && ids.contains o.id)).map
        OrderRow.id).toFinset = ids.toFinset := by
      apply Finset.Subset.antisymm
      · intro a ha
        rw [List.mem_toFinset] at ha ⊢
        exact bulk_found_sub dbOrders ids t a ha
      · intro a ha
        rw [List.mem_toFinset] at ha ⊢
        exact h2 a ha
    have hc1 := List.toFinset_card_of_nodup hFnd
    have hc2 := List.toFinset_card_of_nodup hids
    rw [heqF, hc2] at hc1
    omega

/-- Success path of placeOrder: when the tenant resolves active, the
body validates, the product resolves to the tenant and the shipping
class resolves to the tenant, the handler persists exactly one order
with the exact two-decimal money fields and status new, for amounts
within the numeric(10,2) capacity of the order columns. -/
theorem placeOrder_success
    (st : StoreState) (slug : String) (b : CheckoutBody) (newId : String) (now : ℤ)
    (t : Tenant) (p : Product) (sc : ShippingClass)
    (ht : st.tenants.find? (fun t' => t'.slug == slug) = some t)
    (hact : t.status = "active")
    (hval : checkoutIssue b = none)
    (hp : st.products.find? (fun p' => p'.id == b.productId) = some p)
    (hpt : p.tenantId = t.id)
    (hsc : st.shippingClasses.find? (fun sc' => sc'.id == b.shippingClassId) = some sc)
    (hsct : sc.tenantId = t.id)
    (hprice : 1 ≤ p.price) (hq : 1 ≤ b.quantity)
    (hcap : p.price * b.quantity + sc.fee ≤ 10^10) :
    placeOrder st slug b newId now =
      (.ok { id := newId, tenantId := t.id, productId := p.id, variantId := none,
             customerName := b.customerName, phone := b.phone, address := b.address,
             quantity := b.quantity, shippingClassId := some b.shippingClassId,
             shippingFee := sc.fee, subtotal := p.price * b.quantity,
             total := p.price * b.quantity + sc.fee, status := "new", createdAt := now },
       { st with orders := st.orders ++
          [{ id := newId, tenantId := t.id, productId := p.id, variantId := none,
             customerName := b.customerName, phone := b.phone, address := b.address,
             quantity := b.quantity, shippingClassId := some b.shippingClassId,
             shippingFee := sc.fee, subtotal := p.price * b.quantity,
             total := p.price * b.quantity + sc.fee, status := "new", createdAt := now }] }) := by
  have hsub := subCents p.price b.quantity hprice hq (by omega)
  have hfee := feeCents sc.fee (by omega)
  have htot := totCents p.price b.quantity sc.fee hprice hq hcap
  rw [placeOrder, ht, hval, hp, hsc]
  simp only [hact, hpt, hsct, ne_eq, not_true_eq_false, if_false, ite_false]
  rw [hsub, hfee, htot]

/-- C1: for every successful checkout via placeOrder, the persisted
order satisfies subtotal = price times quantity, shipping fee copied
from the shipping class, total = subtotal + shipping fee, all stored as
exact two-decimal values, and status new (for amounts within the
numeric(10,2) columns, where the binary64 rounding error stays below
half a cent). -/
theorem claim_C1_checkout_pricing
    (st : StoreState) (slug : String) (b : CheckoutBody) (newId : String) (now : ℤ)
    (t : Tenant) (p : Product) (sc : ShippingClass)
    (ht : st.tenants.find? (fun t' => t'.slug == slug) = some t)
    (hact : t.status = "active")
    (hval : checkoutIssue b = none)
    (hp : st.products.find? (fun p' => p'.id == b.productId) = some p)
    (hpt : p.tenantId = t.id)
    (hsc : st.shippingClasses.find? (fun sc' => sc'.id == b.shippingClassId) = some sc)
    (hsct : sc.tenantId = t.id)
    (hprice : 1 ≤ p.price) (hq : 1 ≤ b.quantity)
    (hcap : p.price * b.quantity + sc.fee ≤ 10^10) :
    ∀ row res, placeOrder st slug b newId now = (.ok row, res) →
      row.subtotal = p.price * b.quantity ∧
      row.shippingFee = sc.fee ∧
      row.total = row.subtotal + row.shippingFee ∧
      row.status = "new" ∧
      res = { st with orders := st.orders ++ [row] } := by
  intro row res hres
  rw [placeOrder_success st slug b newId now t p sc ht hact hval hp hpt hsc hsct
    hprice hq hcap] at hres
  obtain ⟨h1, h2⟩ := Prod.mk.injEq .. ▸ hres
  cases h1
  cases h2
  exact ⟨rfl, rfl, rfl, rfl, rfl⟩

/-- C1 witness: price 500.00, quantity 2, fee 60.00 gives subtotal
1000.00, total 1060.00 and status new. -/
theorem claim_C1_checkout_pricing_witness :
    exRow.subtotal = 100000 ∧ exRow.shippingFee = 6000 ∧
    exRow.total = exRow.subtotal + exRow.shippingFee ∧ exRow.status = "new" ∧
    ({ exState with orders := exState.orders ++ [exRow] } : StoreState) =
      { exState with orders := exState.orders ++ [exRow] } := by
  have h := claim_C1_checkout_pricing exState "shop" exBody "o1" 1000
    exTenant exProduct exShipping (by decide) rfl (by decide) (by decide) rfl
    (by decide) rfl (by decide) (by decide) (by decide)
    exRow ({ exState with orders := exState.orders ++ [exRow] }) (by decide)
  exact ⟨h.1, h.2.1, h.2.2.1, h.2.2.2.1, rfl⟩

/-- C2 counterexample: two delivered orders with totals 0.10 and 0.20
produce a status-breakdown revenue that is the binary64 double
0.30000000000000004, not the exact decimal 0.30: aggregation arithmetic
does pass through binary floating point, visibly. -/
theorem claim_C2_exact_decimal_counterexample :
    statusBreakdown (windowFilter [exDriftA, exDriftB] 1000 Period.all) =
      [("delivered", (2, ⟨5404319552844596, -54⟩))] ∧
    Fp64.val ⟨5404319552844596, -54⟩ ≠ ((10:ℚ) + 20)/100 := by
  constructor
  · decide
  · rw [Fp64.val]
    norm_num

/-- C2 amended: the persisted order money fields are exact two-decimal
values (subtotal is exactly unit price times quantity, including
repeating-decimal-prone inputs) for every amount within the
numeric(10,2) capacity, even though the arithmetic passes through
binary64; the analytics revenue sums, however, are exposed as raw
binary64 values and can drift from the exact decimal sum. -/
theorem claim_C2_exact_decimal_amended (pc q fc : ℕ)
    (h1 : 1 ≤ pc) (h2 : 1 ≤ q) (h3 : pc * q + fc ≤ 10^10) :
    toFixed2 (fpMulNat (parseDec pc) q) = pc * q ∧
    toFixed2 (parseDec fc) = fc ∧
    toFixed2 (fpAdd (fpMulNat (parseDec pc) q) (parseDec fc)) = pc * q + fc :=
  ⟨subCents pc q h1 h2 (by omega), feeCents fc (by omega), totCents pc q fc h1 h2 h3⟩

/-- C2 witness: price 33.33 with quantity 3 persists subtotal exactly
99.99 despite the float product being 99.99000000000001. -/
theorem claim_C2_exact_decimal_amended_witness :
    toFixed2 (fpMulNat (parseDec 3333) 3) = 9999 ∧
    toFixed2 (parseDec 6000) = 6000 ∧
    toFixed2 (fpAdd (fpMulNat (parseDec 3333) 3) (parseDec 6000)) = 3333 * 3 + 6000 :=
  claim_C2_exact_decimal_amended 3333 3 6000 (by decide) (by decide) (by decide)

/-- C6: a checkout whose product resolves and is owned, but whose
shipping class is missing or belongs to a different tenant, fails with
the distinct 400 Invalid shipping option, not a 404. -/
theorem claim_C6_invalid_shipping
    (st : StoreState) (slug : String) (b : CheckoutBody) (newId : String) (now : ℤ)
    (t : Tenant) (p : Product)
    (ht : st.tenants.find? (fun t' => t'.slug == slug) = some t)
    (hact : t.status = "active")
    (hval : checkoutIssue b = none)
    (hp : st.products.find? (fun p' => p'.id == b.productId) = some p)
    (hpt : p.tenantId = t.id) :
    (st.shippingClasses.find? (fun sc' => sc'.id == b.shippingClassId) = none →
      placeOrder st slug b newId now = (.error ⟨400, "Invalid shipping option"⟩, st)) ∧
    (∀ sc, st.shippingClasses.find? (fun sc' => sc'.id == b.shippingClassId) = some sc →
      sc.tenantId ≠ t.id →
      placeOrder st slug b newId now = (.error ⟨400, "Invalid shipping option"⟩, st)) := by
  constructor
  · intro hnone
    rw [placeOrder, ht, hval, hp, hnone]
    simp only [hact, hpt, ne_eq, not_true_eq_false, if_false, ite_false]
  · intro sc hsc hne
    rw [placeOrder, ht, hval, hp, hsc]
    simp only [hact, hpt, ne_eq, not_true_eq_false, if_false, ite_false, hne,
      not_false_iff, if_true, ite_true]

/-- C6 witness: selecting the other tenant shipping class on a valid
product yields the 400 Invalid shipping option. -/
theorem claim_C6_invalid_shipping_witness :
    placeOrder exState "shop" exBodyBadShip "o1" 1000 =
      (.error ⟨400, "Invalid shipping option"⟩, exState) :=
  (claim_C6_invalid_shipping exState "shop" exBodyBadShip "o1" 1000
    exTenant exProduct (by decide) rfl (by decide) (by decide) rfl).2
    exShippingB (by decide) (by decide)

/-- C7 counterexample: the checkout body carries a variant id that
resolves to a variant of the ordered product with a price override of
50.00; yet the persisted subtotal is the base price 100.00 times 0.5
quantity... precisely: quantity 1 with product price 500.00 persists
subtotal 500.00, not the variant price 50.00, and no variant reference
is persisted. -/
theorem claim_C7_variant_price_counterexample :
    exBodyVar.variantId = some exVariant.id ∧
    exVariant.productId = exProduct.id ∧
    placeOrder exState "shop" exBodyVar "o1" 1000 =
      (.ok exRowVar, { exState with orders := exState.orders ++ [exRowVar] }) ∧
    exRowVar.subtotal = 50000 ∧
    exVariant.price * exBodyVar.quantity = 5000 ∧
    exRowVar.subtotal ≠ exVariant.price * exBodyVar.quantity ∧
    exRowVar.variantId = none := by
  refine ⟨rfl, rfl, by decide, rfl, rfl, by decide, rfl⟩

/-- C7 amended: when a variant id is supplied and resolves to a variant
owned by the ordered product, placeOrder ignores it entirely: the
persisted subtotal is still the base product price times quantity and
the variant reference is not persisted. -/
theorem claim_C7_variant_price_amended
    (st : StoreState) (slug : String) (b : CheckoutBody) (newId : String) (now : ℤ)
    (t : Tenant) (p : Product) (sc : ShippingClass) (v : ProductVariant)
    (hv : v ∈ st.variants) (hvid : b.variantId = some v.id) (hvp : v.productId = p.id)
    (ht : st.tenants.find? (fun t' => t'.slug == slug) = some t)
    (hact : t.status = "active")
    (hval : checkoutIssue b = none)
    (hp : st.products.find? (fun p' => p'.id == b.productId) = some p)
    (hpt : p.tenantId = t.id)
    (hsc : st.shippingClasses.find? (fun sc' => sc'.id == b.shippingClassId) = some sc)
    (hsct : sc.tenantId = t.id)
    (hprice : 1 ≤ p.price) (hq : 1 ≤ b.quantity)
    (hcap : p.price * b.quantity + sc.fee ≤ 10^10) :
    ∀ row res, placeOrder st slug b newId now = (.ok row, res) →
      row.subtotal = p.price * b.quantity ∧ row.variantId = none := by
  intro row res hres
  rw [placeOrder_success st slug b newId now t p sc ht hact hval hp hpt hsc hsct
    hprice hq hcap] at hres
  obtain ⟨h1, h2⟩ := Prod.mk.injEq .. ▸ hres
  cases h1
  exact ⟨rfl, rfl⟩

/-- C7 amended witness: the variant-carrying checkout persists the base
price subtotal and no variant reference. -/
theorem claim_C7_variant_price_amended_witness :
    exRowVar.subtotal = exProduct.price * exBodyVar.quantity ∧ exRowVar.variantId = none := by
  have h := claim_C7_variant_price_amended exState "shop" exBodyVar "o1" 1000
    exTenant exProduct exShipping exVariant (by decide) rfl rfl (by decide) rfl
    (by decide) (by decide) rfl (by decide) rfl (by decide) (by decide) (by decide)
    exRowVar ({ exState with orders := exState.orders ++ [exRowVar] }) (by decide)
  exact h

/-- C3: the bulk status update rejects the whole batch without touching
any row when some id does not resolve to an order of the tenant, and
otherwise applies the status to exactly the batch rows and returns the
batch size as the updated count (ids form a set; order ids are primary
keys). -/
theorem claim_C3_bulk_status (dbOrders : List OrderRow) (ids : List String)
    (status t : String) (hids : ids.Nodup) (hdb : (dbOrders.map OrderRow.id).Nodup) :
    ((∃ i ∈ ids, ∀ o ∈ dbOrders, ¬(o.id = i ∧ o.tenantId = t)) →
      bulkUpdateOrderStatus dbOrders ids status t =
        (dbOrders, .error "Some orders not found or don\x27t belong to tenant")) ∧
    ((∀ i ∈ ids, ∃ o, o ∈ dbOrders ∧ o.id = i ∧ o.tenantId = t) →
      bulkUpdateOrderStatus dbOrders ids status t =
        (dbOrders.map (fun o => if o.id ∈ ids then { o with status := status } else o),
         .ok ids.length)) := by
  constructor
  · rintro ⟨i, hi, hbad⟩
    have hne : (dbOrders.filter
        (fun o => o.tenantId == t && ids.contains o.id)).length ≠ ids.length := by
      intro heq
      rcases (bulk_owned_iff dbOrders ids t hids hdb).1 heq i hi with ⟨o, ho, hido, hto⟩
      exact hbad o ho ⟨hido, hto⟩
    rw [bulkUpdateOrderStatus, if_pos hne]
  · intro hall
    have heq := (bulk_owned_iff dbOrders ids t hids hdb).2 hall
    rw [bulkUpdateOrderStatus, if_neg (not_not_intro heq), heq]
    refine congrArg₂ Prod.mk ?_ rfl
    apply List.map_congr_left
    intro o ho
    by_cases hmem : o.id ∈ ids
    · rcases hall o.id hmem with ⟨o', ho', hid', ht'⟩
      have hoo : o' = o := List.inj_on_of_nodup_map hdb ho' ho hid'
      have htO : o.tenantId = t := hoo ▸ ht'
      have hcond : (o.tenantId == t && List.contains ids o.id) = true := by
        rw [Bool.and_eq_true]
        exact ⟨beq_iff_eq.2 htO, List.elem_iff.2 hmem⟩
      rw [if_pos hcond, if_pos hmem]
    · have hcf : List.contains ids o.id = false := by
        rw [← Bool.not_eq_true]
        intro hc
        exact hmem (List.elem_iff.1 hc)
      rw [if_neg (by rw [hcf, Bool.and_false]; exact Bool.false_ne_true), if_neg hmem]

/-- C3 witness: a batch of three ids where one belongs to another
tenant is rejected as a whole with no row mutated. -/
theorem claim_C3_bulk_status_witness :
    bulkUpdateOrderStatus exBulkDb exBulkIds "confirmed" "t1" =
      (exBulkDb, .error "Some orders not found or don\x27t belong to tenant") :=
  (claim_C3_bulk_status exBulkDb exBulkIds "confirmed" "t1"
    (by decide) (by decide)).1 (by decide)

/-- C5: for products and orders addressed by id under tenant
authentication, a cross-tenant reference produces exactly the same 404
response and unchanged store as a nonexistent id, for update, delete
and status update. -/
theorem claim_C5_tenant_isolation (st : StoreState) (A pid oid newStatus : String)
    (upd : Product → Product) :
    ((st.products.find? (fun p => p.id == pid) = none →
        patchProductR st A pid upd = (.error ⟨404, "Product not found"⟩, st) ∧
        deleteProductR st A pid = (.error ⟨404, "Product not found"⟩, st)) ∧
     (∀ p, st.products.find? (fun p' => p'.id == pid) = some p → p.tenantId ≠ A →
        patchProductR st A pid upd = (.error ⟨404, "Product not found"⟩, st) ∧
        deleteProductR st A pid = (.error ⟨404, "Product not found"⟩, st))) ∧
    ((st.orders.find? (fun o => o.id == oid) = none →
        patchOrderStatusR st A oid newStatus = (.error ⟨404, "Order not found"⟩, st)) ∧
     (∀ o, st.orders.find? (fun o' => o'.id == oid) = some o → o.tenantId ≠ A →
        patchOrderStatusR st A oid newStatus = (.error ⟨404, "Order not found"⟩, st))) := by
  refine ⟨⟨?_, ?_⟩, ?_, ?_⟩
  · intro hnone
    rw [patchProductR, hnone, deleteProductR, hnone]
    exact ⟨rfl, rfl⟩
  · intro p hp hne
    rw [patchProductR, hp, deleteProductR, hp]
    dsimp only
    rw [if_pos hne, if_pos hne]
    exact ⟨rfl, rfl⟩
  · intro hnone
    rw [patchOrderStatusR, hnone]
  · intro o ho hne
    rw [patchOrderStatusR, ho]
    dsimp only
    rw [if_pos hne]

/-- C5 witness: tenant t1 patching the product and the order of tenant
t2 receives the same 404 and unchanged state as for a missing id. -/
theorem claim_C5_tenant_isolation_witness :
    (patchProductR exState "t1" "pB" id = (.error ⟨404, "Product not found"⟩, exState) ∧
     deleteProductR exState "t1" "pB" = (.error ⟨404, "Product not found"⟩, exState)) ∧
    (patchProductR exState "t1" "missing" id = (.error ⟨404, "Product not found"⟩, exState) ∧
     deleteProductR exState "t1" "missing" = (.error ⟨404, "Product not found"⟩, exState)) ∧
    patchOrderStatusR exState "t1" "oB" "cancelled" =
      (.error ⟨404, "Order not found"⟩, exState) := by
  refine ⟨?_, ?_, ?_⟩
  · exact (claim_C5_tenant_isolation exState "t1" "pB" "oB" "cancelled" id).1.2
      exProductB (by decide) (by decide)
  · exact (claim_C5_tenant_isolation exState "t1" "missing" "oB" "cancelled" id).1.1
      (by decide)
  · exact (claim_C5_tenant_isolation exState "t1" "pB" "oB" "cancelled" id).2.2
      exOrderB (by decide) (by decide)

/-- C8: from a store with no active plan, the registration bootstrap
creates exactly one default free plan (limit 5, tracking on, custom
domain off, price zero, active), and running it again reuses that plan
without creating a duplicate. -/
theorem claim_C8_plan_bootstrap (db : List Plan) (hno : ∀ p ∈ db, p.isActive = false) :
    ensureFreePlan db = (db ++ [defaultFreePlan], defaultFreePlan) ∧
    ensureFreePlan (db ++ [defaultFreePlan]) = (db ++ [defaultFreePlan], defaultFreePlan) ∧
    ((db ++ [defaultFreePlan]).filter isDefaultFreePlan).length = 1 := by
  have hfil : db.filter (fun p => p.isActive) = [] := by
    rw [List.filter_eq_nil]
    intro p hp
    simp [hno p hp]
  have h1 : ensureFreePlan db = (db ++ [defaultFreePlan], defaultFreePlan) := by
    rw [ensureFreePlan, getActivePlans, hfil]
    rfl
  have hfil2 : (db ++ [defaultFreePlan]).filter (fun p => p.isActive) = [defaultFreePlan] := by
    rw [List.filter_append, hfil]
    rfl
  have h2 : ensureFreePlan (db ++ [defaultFreePlan]) = (db ++ [defaultFreePlan], defaultFreePlan) := by
    rw [ensureFreePlan, getActivePlans, hfil2]
    rfl
  refine ⟨h1, h2, ?_⟩
  rw [List.filter_append]
  have hdf : db.filter isDefaultFreePlan = [] := by
    rw [List.filter_eq_nil]
    intro p hp
    simp [isDefaultFreePlan, hno p hp]
  rw [hdf]
  rfl

/-- C8 witness: bootstrapping twice from a store holding only an
inactive plan creates exactly one default plan, reused the second time. -/
theorem claim_C8_plan_bootstrap_witness :
    ensureFreePlan [exPlanInactive] = ([exPlanInactive, defaultFreePlan], defaultFreePlan) ∧
    ensureFreePlan [exPlanInactive, defaultFreePlan] =
      ([exPlanInactive, defaultFreePlan], defaultFreePlan) ∧
    (([exPlanInactive, defaultFreePlan]).filter isDefaultFreePlan).length = 1 := by
  have h := claim_C8_plan_bootstrap [exPlanInactive] (by decide)
  exact h

/-- C10: the enforced product limit is the plan limit only when
nonzero; a missing plan or a zero limit silently falls back to 5, so a
plan with productLimit zero still permits up to five products. -/
theorem claim_C10_product_limit_fallback (p : Plan) (c : ℕ) :
    effectiveProductLimit none = 5 ∧
    (p.productLimit = 0 → effectiveProductLimit (some p) = 5) ∧
    (p.productLimit ≠ 0 → effectiveProductLimit (some p) = p.productLimit) ∧
    ((postProductR c (some p)).isOk = true ↔ (c:ℤ) < effectiveProductLimit (some p)) ∧
    (p.productLimit = 0 → ((postProductR c (some p)).isOk = true ↔ c < 5)) := by
  have hiff : (postProductR c (some p)).isOk = true ↔ (c:ℤ) < effectiveProductLimit (some p) := by
    rw [postProductR]
    split_ifs with h
    · simp only [Except.isOk]
      constructor
      · intro hc; cases hc
      · intro hc; omega
    · simp only [Except.isOk]
      constructor
      · intro _; omega
      · intro _; rfl
  refine ⟨rfl, ?_, ?_, hiff, ?_⟩
  · intro h
    rw [effectiveProductLimit, if_pos h]
  · intro h
    rw [effectiveProductLimit, if_neg h]
  · intro h
    rw [hiff, effectiveProductLimit, if_pos h]
    omega

/-- C10 witness: a plan configured with productLimit zero still admits
a fourth product (count 4 allowed against the fallback limit 5). -/
theorem claim_C10_product_limit_fallback_witness :
    effectiveProductLimit (some exPlanZero) = 5 ∧
    (postProductR 4 (some exPlanZero)).isOk = true ∧
    ((postProductR 5 (some exPlanZero)).isOk = true → False) := by
  have h4 := claim_C10_product_limit_fallback exPlanZero 4
  have h5 := claim_C10_product_limit_fallback exPlanZero 5
  refine ⟨h4.2.1 rfl, ?_, ?_⟩
  · rw [h4.2.2.2.2 rfl]
    omega
  · intro hc
    rw [h5.2.2.2.2 rfl] at hc
    omega

/-- Fold of repeated zero additions keeps the zero mantissa. -/
theorem foldl_fpAdd_zero_m {α : Type} :
    ∀ (l : List α) (x : Fp64), x.m = 0 →
    (l.foldl (fun acc (_ : α) => fpAdd acc fpZero) x).m = 0 := by
  intro l
  induction l with
  | nil => intro x hx; exact hx
  | cons o rest ih =>
    intro x hx
    rw [List.foldl_cons]
    exact ih _ (fpAdd_m_zero x fpZero hx rfl)

/-- First component of the status-breakdown fold. -/
theorem sbFold_fst : ∀ (l : List OrderRow) (a : ℕ) (b : Fp64),
    (l.foldl (fun prev o => (prev.1 + 1,
      fpAdd prev.2 (if o.status = "delivered" then parseDec o.total else fpZero))) (a, b)).1 =
    a + l.length := by
  intro l
  induction l with
  | nil => intro a b; simp
  | cons o rest ih =>
    intro a b
    rw [List.foldl_cons]
    dsimp only
    rw [ih, List.length_cons]
    omega

/-- Second component of the status-breakdown fold. -/
theorem sbFold_snd : ∀ (l : List OrderRow) (a : ℕ) (b : Fp64),
    (l.foldl (fun prev o => (prev.1 + 1,
      fpAdd prev.2 (if o.status = "delivered" then parseDec o.total else fpZero))) (a, b)).2 =
    l.foldl (fun acc o => fpAdd acc
      (if o.status = "delivered" then parseDec o.total else fpZero)) b := by
  intro l
  induction l with
  | nil => intro a b; simp
  | cons o rest ih =>
    intro a b
    rw [List.foldl_cons, List.foldl_cons]
    dsimp only
    rw [ih]

/-- Every entry of the status breakdown aggregates exactly the orders
with its status label. -/
theorem statusBreakdown_get (os : List OrderRow) (e : String × (ℕ × Fp64))
    (he : e ∈ statusBreakdown os) :
    e.2 = (os.filter (fun o => decide (o.status = e.1))).foldl
      (fun prev o => (prev.1 + 1,
        fpAdd prev.2 (if o.status = "delivered" then parseDec o.total else fpZero)))
      (0, fpZero) ∧
    (os.filter (fun o => decide (o.status = e.1))) ≠ [] := by
  rw [statusBreakdown] at he
  have hnd := groupFold_keys_nodup (fun o : OrderRow => o.status)
    (fun _ => ((0:ℕ), fpZero))
    (fun prev o => (prev.1 + 1,
      fpAdd prev.2 (if o.status = "delivered" then parseDec o.total else fpZero)))
    os [] (by simp)
  have hget := mapGet_eq_some_of_mem _ e hnd he
  cases hfil : os.filter (fun o => decide (o.status = e.1)) with
  | nil =>
    exfalso
    rw [groupFold_get, hfil] at hget
    simp [mapGet] at hget
  | cons o rest =>
    have hg2 : mapGet (os.foldl (groupStep (fun o => o.status)
        (fun _ => ((0:ℕ), fpZero))
        (fun prev o => (prev.1 + 1,
          fpAdd prev.2 (if o.status = "delivered" then parseDec o.total else fpZero)))) [])
        e.1 =
        some ((o :: rest).foldl
          (fun prev o' => (prev.1 + 1,
            fpAdd prev.2 (if o'.status = "delivered" then parseDec o'.total else fpZero)))
          (0, fpZero)) := by
      rw [groupFold_get, hfil,
        show mapGet ([] : List (String × (ℕ × Fp64))) e.1 = none from rfl]
      exact optFold_none_cons (fun _ : OrderRow => ((0:ℕ), fpZero))
        (fun prev o' => (prev.1 + 1,
          fpAdd prev.2 (if o'.status = "delivered" then parseDec o'.total else fpZero)))
        o rest
    rw [hget] at hg2
    exact ⟨Option.some.inj hg2, by simp⟩


set_option maxHeartbeats 2000000 in
/-- Concrete evaluation of the status breakdown on the three-order example. -/
theorem statusBreakdown_example :
    statusBreakdown [exOrderNew, exOrderConfirmed, exOrderDelivered] =
      [("new", (1, ⟨0, -1074⟩)), ("confirmed", (1, ⟨0, -1074⟩)),
       ("delivered", (1, ⟨5277655813324800, -44⟩))] := by
  decide

/-- The example window keeps all three orders. -/
theorem windowFilter_example :
    windowFilter [exOrderNew, exOrderConfirmed, exOrderDelivered] 100 Period.all =
      [exOrderNew, exOrderConfirmed, exOrderDelivered] := by
  decide

/-- C4: the status breakdown counts every window order toward the
count of its status, while revenue is zero for every status other than
delivered and equals the float sum of the delivered totals for the
delivered entry; the concrete new/confirmed/delivered example with
totals 100, 200, 300 reports revenue 0, 0, 300 and order count 3. -/
theorem claim_C4_status_breakdown (os : List OrderRow) (now : ℤ) (period : Period) :
    (∀ e ∈ statusBreakdown (windowFilter os now period),
      e.2.1 = ((windowFilter os now period).filter (fun o => decide (o.status = e.1))).length ∧
      (e.1 ≠ "delivered" → Fp64.val e.2.2 = 0) ∧
      (e.1 = "delivered" → e.2.2 =
        ((windowFilter os now period).filter (fun o => decide (o.status = "delivered"))).foldl
          (fun acc o => fpAdd acc (parseDec o.total)) fpZero)) ∧
    (∀ o ∈ windowFilter os now period,
      ∃ e ∈ statusBreakdown (windowFilter os now period), e.1 = o.status) ∧
    statusBreakdown [exOrderNew, exOrderConfirmed, exOrderDelivered] =
      [("new", (1, ⟨0, -1074⟩)), ("confirmed", (1, ⟨0, -1074⟩)),
       ("delivered", (1, ⟨5277655813324800, -44⟩))] ∧
    Fp64.val ⟨0, -1074⟩ = 0 ∧
    Fp64.val ⟨5277655813324800, -44⟩ = 300 ∧
    (statusBreakdown [exOrderNew, exOrderConfirmed, exOrderDelivered]).foldl
      (fun n e => n + e.2.1) 0 = 3 := by
  refine ⟨?_, ?_, statusBreakdown_example, by rw [Fp64.val]; norm_num,
    by rw [Fp64.val]; norm_num, by rw [statusBreakdown_example]; decide⟩
  · intro e he
    obtain ⟨hval, hne⟩ := statusBreakdown_get _ e he
    refine ⟨?_, ?_, ?_⟩
    · rw [hval]
      exact (sbFold_fst ((windowFilter os now period).filter
        (fun o => decide (o.status = e.1))) 0 fpZero).trans (Nat.zero_add _)
    · intro hnd2
      have hval2 : e.2.2 =
          ((windowFilter os now period).filter (fun o => decide (o.status = e.1))).foldl
            (fun acc o => fpAdd acc
              (if o.status = "delivered" then parseDec o.total else fpZero)) fpZero := by
        rw [hval]
        exact sbFold_snd ((windowFilter os now period).filter
          (fun o => decide (o.status = e.1))) 0 fpZero
      have hze : ((windowFilter os now period).filter (fun o => decide (o.status = e.1))).foldl
          (fun acc o => fpAdd acc
            (if o.status = "delivered" then parseDec o.total else fpZero)) fpZero =
          ((windowFilter os now period).filter (fun o => decide (o.status = e.1))).foldl
          (fun acc _ => fpAdd acc fpZero) fpZero := by
        apply List.foldl_ext
        intro acc o ho
        have hst : o.status = e.1 := by simpa using List.of_mem_filter ho
        rw [if_neg (by rw [hst]; exact hnd2)]
      rw [hval2, hze]
      exact val_zero_of_m_zero _ (foldl_fpAdd_zero_m _ _ rfl)
    · intro hd
      have hval2 : e.2.2 =
          ((windowFilter os now period).filter (fun o => decide (o.status = e.1))).foldl
            (fun acc o => fpAdd acc
              (if o.status = "delivered" then parseDec o.total else fpZero)) fpZero := by
        rw [hval]
        exact sbFold_snd ((windowFilter os now period).filter
          (fun o => decide (o.status = e.1))) 0 fpZero
      rw [hval2, hd]
      apply List.foldl_ext
      intro acc o ho
      have hst : o.status = "delivered" := by simpa using List.of_mem_filter ho
      rw [if_pos hst]
  · intro o ho
    have hfilmem : o ∈ (windowFilter os now period).filter
        (fun o' => decide (o'.status = o.status)) :=
      List.mem_filter.2 ⟨ho, by simp⟩
    cases hfil : (windowFilter os now period).filter
        (fun o' => decide (o'.status = o.status)) with
    | nil => rw [hfil] at hfilmem; cases hfilmem
    | cons o₁ rest =>
      have hg : mapGet (statusBreakdown (windowFilter os now period)) o.status =
          some ((o₁ :: rest).foldl
            (fun prev o' => (prev.1 + 1,
              fpAdd prev.2 (if o'.status = "delivered" then parseDec o'.total else fpZero)))
            (0, fpZero)) := by
        rw [statusBreakdown, groupFold_get, hfil,
          show mapGet ([] : List (String × (ℕ × Fp64))) o.status = none from rfl]
        exact optFold_none_cons (fun _ : OrderRow => ((0:ℕ), fpZero))
          (fun prev o' => (prev.1 + 1,
            fpAdd prev.2 (if o'.status = "delivered" then parseDec o'.total else fpZero)))
          o₁ rest
      exact ⟨(o.status, _), mem_of_mapGet_eq_some _ _ _ hg, rfl⟩

/-- C4 witness: the delivered entry of the example breakdown counts one
order, and a non-delivered revenue value is zero. -/
theorem claim_C4_status_breakdown_witness :
    (("delivered", ((1:ℕ), (⟨5277655813324800, -44⟩ : Fp64))) : String × (ℕ × Fp64)).2.1 =
      ((windowFilter [exOrderNew, exOrderConfirmed, exOrderDelivered] 100 Period.all).filter
        (fun o => decide (o.status = "delivered"))).length ∧
    Fp64.val ⟨0, -1074⟩ = 0 := by
  have h := claim_C4_status_breakdown [exOrderNew, exOrderConfirmed, exOrderDelivered]
    100 Period.all
  have hmem : (("delivered", ((1:ℕ), (⟨5277655813324800, -44⟩ : Fp64))) :
      String × (ℕ × Fp64)) ∈
      statusBreakdown (windowFilter [exOrderNew, exOrderConfirmed, exOrderDelivered]
        100 Period.all) := by
    rw [windowFilter_example, statusBreakdown_example]
    decide
  exact ⟨(h.1 _ hmem).1, h.2.2.2.1⟩

/-- Name component of the top-products fold. -/
theorem tpFold_name (nameMap : List (String × String)) :
    ∀ (l : List OrderRow) (x : String × ℕ × Fp64) (k : String),
    (∀ o ∈ l, o.productId = k) →
    x.1 = (mapGet nameMap k).getD "Unknown Product" →
    (l.foldl (fun prev o => ((mapGet nameMap o.productId).getD "Unknown Product",
        prev.2.1 + 1, fpAdd prev.2.2 (parseDec o.total))) x).1 =
      (mapGet nameMap k).getD "Unknown Product" := by
  intro l
  induction l with
  | nil => intro x k _ hx; exact hx
  | cons o rest ih =>
    intro x k hall hx
    rw [List.foldl_cons]
    refine ih _ k (fun o' ho' => hall o' (List.mem_cons_of_mem _ ho')) ?_
    dsimp only
    rw [hall o (List.mem_cons_self _ _)]

/-- Count component of the top-products fold. -/
theorem tpFold_count (nameMap : List (String × String)) :
    ∀ (l : List OrderRow) (x : String × ℕ × Fp64),
    (l.foldl (fun prev o => ((mapGet nameMap o.productId).getD "Unknown Product",
        prev.2.1 + 1, fpAdd prev.2.2 (parseDec o.total))) x).2.1 = x.2.1 + l.length := by
  intro l
  induction l with
  | nil => intro x; simp
  | cons o rest ih =>
    intro x
    rw [List.foldl_cons, ih]
    dsimp only
    rw [List.length_cons]
    omega

/-- Revenue component of the top-products fold. -/
theorem tpFold_rev (nameMap : List (String × String)) :
    ∀ (l : List OrderRow) (x : String × ℕ × Fp64),
    (l.foldl (fun prev o => ((mapGet nameMap o.productId).getD "Unknown Product",
        prev.2.1 + 1, fpAdd prev.2.2 (parseDec o.total))) x).2.2 =
      l.foldl (fun acc o => fpAdd acc (parseDec o.total)) x.2.2 := by
  intro l
  induction l with
  | nil => intro x; simp
  | cons o rest ih =>
    intro x
    rw [List.foldl_cons, ih, List.foldl_cons]

/-- Full specification of the top-products view on an arbitrary order
window: truncation to ten, descending revenue order, and per-entry
aggregation with catalog name resolution. -/
theorem topProducts_spec (os : List OrderRow) (ps : List Product) :
    (topProducts os ps).length ≤ 10 ∧
    List.Pairwise (fun a b => Fp64.val b.revenue ≤ Fp64.val a.revenue) (topProducts os ps) ∧
    ∀ e ∈ topProducts os ps,
      e.orders = (os.filter (fun o => decide (o.productId = e.productId))).length ∧
      e.revenue = (os.filter (fun o => decide (o.productId = e.productId))).foldl
        (fun acc o => fpAdd acc (parseDec o.total)) fpZero ∧
      e.productName = (mapGet (buildNameMap ps) e.productId).getD "Unknown Product" ∧
      (os.filter (fun o => decide (o.productId = e.productId))) ≠ [] := by
  have htot : ∀ a b : TPEntry,
      fpLeB b.revenue a.revenue = true ∨ fpLeB a.revenue b.revenue = true := by
    intro a b
    rcases le_total (Fp64.val b.revenue) (Fp64.val a.revenue) with h | h
    · exact Or.inl ((fpLeB_iff _ _).2 h)
    · exact Or.inr ((fpLeB_iff _ _).2 h)
  have htr : ∀ a b c : TPEntry, fpLeB b.revenue a.revenue = true →
      fpLeB c.revenue b.revenue = true → fpLeB c.revenue a.revenue = true := by
    intro a b c h1 h2
    exact (fpLeB_iff _ _).2 (le_trans ((fpLeB_iff _ _).1 h2) ((fpLeB_iff _ _).1 h1))
  refine ⟨?_, ?_, ?_⟩
  · rw [topProducts, List.length_take]
    exact min_le_left _ _
  · rw [topProducts]
    have hpw := pairwise_jsSort htot htr
      ((os.foldl (tpStep (buildNameMap ps)) []).map
        (fun kv => TPEntry.mk kv.1 kv.2.1 kv.2.2.1 kv.2.2.2))
    exact (List.Pairwise.sublist (List.take_sublist _ _) hpw).imp
      (fun h => (fpLeB_iff _ _).1 h)
  · intro e he
    rw [topProducts] at he
    have h1 : e ∈ jsSort (fun a b => fpLeB b.revenue a.revenue)
        ((os.foldl (tpStep (buildNameMap ps)) []).map
          (fun kv => TPEntry.mk kv.1 kv.2.1 kv.2.2.1 kv.2.2.2)) :=
      (List.take_sublist _ _).subset he
    have h2 := (jsSort_perm _ _).subset h1
    rcases List.mem_map.1 h2 with ⟨kv, hkv, rfl⟩
    have hnd := groupFold_keys_nodup (fun o : OrderRow => o.productId)
      (fun o => ((mapGet (buildNameMap ps) o.productId).getD "Unknown Product",
        (0:ℕ), fpZero))
      (fun prev o => ((mapGet (buildNameMap ps) o.productId).getD "Unknown Product",
        prev.2.1 + 1, fpAdd prev.2.2 (parseDec o.total)))
      os [] (by simp)
    have hget : mapGet (os.foldl (tpStep (buildNameMap ps)) []) kv.1 = some kv.2 := by
      apply mapGet_eq_some_of_mem _ kv _ hkv
      rw [tpStep]
      exact hnd
    cases hfil : os.filter (fun o => decide (o.productId = kv.1)) with
    | nil =>
      exfalso
      rw [tpStep, groupFold_get, hfil] at hget
      simp [mapGet] at hget
    | cons o₁ rest =>
      have hg2 : mapGet (os.foldl (tpStep (buildNameMap ps)) []) kv.1 =
          some ((o₁ :: rest).foldl
            (fun prev o => ((mapGet (buildNameMap ps) o.productId).getD "Unknown Product",
              prev.2.1 + 1, fpAdd prev.2.2 (parseDec o.total)))
            ((mapGet (buildNameMap ps) o₁.productId).getD "Unknown Product", 0, fpZero)) := by
        rw [tpStep, groupFold_get, hfil,
          show mapGet ([] : List (String × (String × ℕ × Fp64))) kv.1 = none from rfl]
        exact optFold_none_cons
          (fun o : OrderRow => ((mapGet (buildNameMap ps) o.productId).getD "Unknown Product",
            (0:ℕ), fpZero))
          (fun prev o => ((mapGet (buildNameMap ps) o.productId).getD "Unknown Product",
            prev.2.1 + 1, fpAdd prev.2.2 (parseDec o.total))) o₁ rest
      rw [hget] at hg2
      have hval := Option.some.inj hg2
      have hpid1 : o₁.productId = kv.1 := by
        have hmem1 : o₁ ∈ os.filter (fun o => decide (o.productId = kv.1)) := by
          rw [hfil]; exact List.mem_cons_self _ _
        simpa using List.of_mem_filter hmem1
      have hallpid : ∀ o ∈ o₁ :: rest, o.productId = kv.1 := by
        intro o ho
        have hmem2 : o ∈ os.filter (fun o' => decide (o'.productId = kv.1)) := by
          rw [hfil]; exact ho
        simpa using List.of_mem_filter hmem2
      refine ⟨?_, ?_, ?_, by simp⟩
      · show kv.2.2.1 = _
        rw [hval]
        exact (tpFold_count (buildNameMap ps) (o₁ :: rest) _).trans (Nat.zero_add _)
      · show kv.2.2.2 = _
        rw [hval]
        exact tpFold_rev (buildNameMap ps) (o₁ :: rest) _
      · show kv.2.1 = _
        rw [hval]
        refine tpFold_name (buildNameMap ps) (o₁ :: rest) _ kv.1 hallpid ?_
        dsimp only
        rw [hpid1]

set_option maxHeartbeats 2000000 in
/-- Concrete evaluation of the top-products view on the example orders. -/
theorem topProducts_example :
    topProducts [exOrderNew, exOrderConfirmed, exOrderDelivered] [exProduct, exProduct2] =
      [⟨"p1", "Widget", 2, ⟨5277655813324800, -44⟩⟩,
       ⟨"p2", "Gadget", 1, ⟨5277655813324800, -44⟩⟩] := by
  decide

set_option maxHeartbeats 2000000 in
/-- With an empty catalog every product id falls back to the placeholder
label instead of aborting the report. -/
theorem topProducts_fallback_example :
    topProducts [exOrderNew, exOrderConfirmed, exOrderDelivered] [] =
      [⟨"p1", "Unknown Product", 2, ⟨5277655813324800, -44⟩⟩,
       ⟨"p2", "Unknown Product", 1, ⟨5277655813324800, -44⟩⟩] := by
  decide

/-- C9: the top-products view groups the window orders by product id,
counts and sums revenue from each order's total unconditionally on
status, resolves names through the catalog with the Unknown Product
placeholder for unresolved ids, sorts descending by revenue and keeps
at most ten entries; on the example orders the new and confirmed
orders still contribute revenue, and an empty catalog yields
placeholder names rather than an aborted report. -/
theorem claim_C9_top_products (os : List OrderRow) (ps : List Product)
    (now : ℤ) (period : Period) :
    (topProducts (windowFilter os now period) ps).length ≤ 10 ∧
    List.Pairwise (fun a b => Fp64.val b.revenue ≤ Fp64.val a.revenue)
      (topProducts (windowFilter os now period) ps) ∧
    (∀ e ∈ topProducts (windowFilter os now period) ps,
      e.orders = ((windowFilter os now period).filter
        (fun o => decide (o.productId = e.productId))).length ∧
      e.revenue = ((windowFilter os now period).filter
        (fun o => decide (o.productId = e.productId))).foldl
        (fun acc o => fpAdd acc (parseDec o.total)) fpZero ∧
      e.productName = (mapGet (buildNameMap ps) e.productId).getD "Unknown Product") ∧
    topProducts [exOrderNew, exOrderConfirmed, exOrderDelivered] [exProduct, exProduct2] =
      [⟨"p1", "Widget", 2, ⟨5277655813324800, -44⟩⟩,
       ⟨"p2", "Gadget", 1, ⟨5277655813324800, -44⟩⟩] ∧
    topProducts [exOrderNew, exOrderConfirmed, exOrderDelivered] [] =
      [⟨"p1", "Unknown Product", 2, ⟨5277655813324800, -44⟩⟩,
       ⟨"p2", "Unknown Product", 1, ⟨5277655813324800, -44⟩⟩] := by
  have h := topProducts_spec (windowFilter os now period) ps
  exact ⟨h.1, h.2.1,
    fun e he => ⟨(h.2.2 e he).1, (h.2.2 e he).2.1, (h.2.2 e he).2.2.1⟩,
    topProducts_example, topProducts_fallback_example⟩

/-- C9 witness: the leading example entry counts exactly the window
orders of its product and carries the catalog name. -/
theorem claim_C9_top_products_witness :
    (⟨"p1", "Widget", 2, ⟨5277655813324800, -44⟩⟩ : TPEntry).orders =
      ((windowFilter [exOrderNew, exOrderConfirmed, exOrderDelivered] 100 Period.all).filter
        (fun o => decide (o.productId = "p1"))).length ∧
    (⟨"p1", "Widget", 2, ⟨5277655813324800, -44⟩⟩ : TPEntry).productName =
      (mapGet (buildNameMap [exProduct, exProduct2]) "p1").getD "Unknown Product" := by
  have h := claim_C9_top_products [exOrderNew, exOrderConfirmed, exOrderDelivered]
    [exProduct, exProduct2] 100 Period.all
  have hmem : (⟨"p1", "Widget", 2, ⟨5277655813324800, -44⟩⟩ : TPEntry) ∈
      topProducts (windowFilter [exOrderNew, exOrderConfirmed, exOrderDelivered]
        100 Period.all) [exProduct, exProduct2] := by
    rw [windowFilter_example, topProducts_example]
    decide
  exact ⟨(h.2.2.1 _ hmem).1, (h.2.2.1 _ hmem).2.2⟩

end RBDT
